import Mathlib

/-!
Verification of the grouping-and-reorganization engine of the
`github-explorer2` browser extension, against its natural-language
specification.

The development shallowly embeds the relevant JavaScript sources:

* `src/core/repository/GroupManager.js`        — name classifier, group extraction
* `src/core/repository/RepositoryFinder.js`    — container/item discovery
* `src/core/repository/RepositoryProcessor.js` — DOM reorganization, rollback
* `src/core/repository/GroupDisplayManager.js` — holder/card visibility
* `src/main.js`                                — orchestration, settings handlers

Strings manipulated by the classifier are modelled as `List Char`; the
JavaScript `toLowerCase`/`toUpperCase` are modelled by the ASCII
`Char.toLower`/`Char.toUpper` (all inputs of interest are ASCII).  The
foreign document is modelled as a rose tree of element nodes carrying a
node identity (`nid`, standing for JavaScript object identity), tag,
class list, attribute list, inline display style and text content.
-/

/-! ## JavaScript string primitives (on `List Char`) -/

/-- `s.toLowerCase()` for an ASCII string. -/
def jsLower (s : List Char) : List Char := s.map Char.toLower

/-- `s.indexOf(c)`: index of the first occurrence, `none` when absent
(JavaScript returns `-1`). -/
def jsIndexOfChar (s : List Char) (c : Char) : Option Nat :=
  s.findIdx? (· = c)

/-- `s.charAt(0).toUpperCase() + s.slice(1)`. -/
def jsCapFirst : List Char → List Char
  | [] => []
  | c :: cs => c.toUpper :: cs

/-- `s.trim()`: strip leading and trailing whitespace. -/
def jsTrim (s : String) : String :=
  ⟨((s.data.dropWhile Char.isWhitespace).reverse.dropWhile
      Char.isWhitespace).reverse⟩

/-! ## `GroupManager.js` — the name classifier

`getGroupName(repoName)` (lines 36–57): custom-group check first, then a
fixed separator scan, else the constant group `General`.  The custom set
is modelled as a list in iteration order (a JavaScript `Set` iterates in
insertion order). -/

/-- The constant fallback group name `'General'`. -/
def generalName : List Char := ['G', 'e', 'n', 'e', 'r', 'a', 'l']

/-- `repoName.toLowerCase().startsWith(customGroup.toLowerCase())`. -/
def customMatches (repoName g : List Char) : Bool :=
  (jsLower g).isPrefixOf (jsLower repoName)

/-- The `for (const customGroup of this.customGroups)` loop: first entry
whose lower-cased form prefixes the lower-cased name. -/
def findCustom (customGroups : List (List Char)) (repoName : List Char) :
    Option (List Char) :=
  customGroups.find? (fun g => customMatches repoName g)

/-- `const separators = ['-', '_', '/', '.', ' ']`. -/
def separators : List Char := ['-', '_', '/', '.', ' ']

/-- The `for (const sep of separators)` loop: for each separator in order,
take the first occurrence index; if it is positive and the lower-cased
preceding substring has length at least 2, return it capitalized,
otherwise try the next separator. -/
def sepScan (repoName : List Char) : List Char → Option (List Char)
  | [] => none
  | sep :: rest =>
    match jsIndexOfChar repoName sep with
    | some i =>
      if 0 < i then
        let p := jsLower (repoName.take i)
        if 2 ≤ p.length then some (jsCapFirst p) else sepScan repoName rest
      else sepScan repoName rest
    | none => sepScan repoName rest

/-- `GroupManager.getGroupName` (GroupManager.js lines 36–57). -/
def getGroupName (customGroups : List (List Char)) (repoName : List Char) :
    List Char :=
  if repoName.isEmpty then generalName
  else
    match findCustom customGroups repoName with
    | some g => g
    | none =>
      match sepScan repoName separators with
      | some g => g
      | none => generalName

/-! ## The foreign document model

A rose tree of element nodes.  `nid` models JavaScript object identity:
`document.createElement` and `cloneNode(true)` allocate fresh `nid`s,
reference equality is `nid` equality (well-formed documents have pairwise
distinct `nid`s).  `display` models `style.display`; `data-*` attributes
model the `dataset`.  Direct text-node children are collapsed into the
`text` field (placed before the element children for `textContent`). -/

mutual

inductive DNode where
  | elem (nid : Nat) (tag : String) (classes : List String)
      (attrs : List (String × String)) (display : String) (text : String)
      (children : DForest)

inductive DForest where
  | nil
  | cons (head : DNode) (tail : DForest)

end

namespace DForest

/-- View a forest as a list of nodes. -/
def toList : DForest → List DNode
  | .nil => []
  | .cons n f => n :: toList f

/-- Build a forest from a list of nodes. -/
def ofList : List DNode → DForest
  | [] => .nil
  | n :: l => .cons n (ofList l)

end DForest

namespace DNode

def nid : DNode → Nat
  | .elem i _ _ _ _ _ _ => i

def tag : DNode → String
  | .elem _ t _ _ _ _ _ => t

def classes : DNode → List String
  | .elem _ _ c _ _ _ _ => c

def attrs : DNode → List (String × String)
  | .elem _ _ _ a _ _ _ => a

def display : DNode → String
  | .elem _ _ _ _ d _ _ => d

def text : DNode → String
  | .elem _ _ _ _ _ x _ => x

def children : DNode → DForest
  | .elem _ _ _ _ _ _ ch => ch

/-- `getAttribute` / `dataset` read. -/
def attr (n : DNode) (k : String) : Option String :=
  n.attrs.lookup k

end DNode

mutual

/-- `textContent`: concatenation of all text in the subtree, own text first. -/
def DNode.textContent : DNode → String
  | .elem _ _ _ _ _ x ch => x ++ DForest.textContent ch

def DForest.textContent : DForest → String
  | .nil => ""
  | .cons n f => DNode.textContent n ++ DForest.textContent f

end

mutual

/-- Pre-order traversal of a node, paired with its chain of ancestors
(outermost first); `anc` is the chain above the node. -/
def DNode.walk (anc : List DNode) : DNode → List (List DNode × DNode)
  | n@(.elem _ _ _ _ _ _ ch) => (anc, n) :: DForest.walk (anc ++ [n]) ch

def DForest.walk (anc : List DNode) : DForest → List (List DNode × DNode)
  | .nil => []
  | .cons n f => DNode.walk anc n ++ DForest.walk anc f

end

/-- All proper descendants of `root` with their ancestor chains
(the root itself is part of every chain). -/
def descendantsOf (root : DNode) : List (List DNode × DNode) :=
  DForest.walk [root] root.children

/-- All nodes of the tree (the root included). -/
def nodesOf (root : DNode) : List DNode :=
  (DNode.walk [] root).map (·.2)

/-- All node identities of the tree. -/
def idsOf (root : DNode) : List Nat :=
  (nodesOf root).map DNode.nid

/-- Look a node up by identity (models holding a JavaScript reference;
meaningful on documents with pairwise distinct `nid`s). -/
def findById (root : DNode) (i : Nat) : Option DNode :=
  (nodesOf root).find? (fun n => n.nid = i)

/-! ### CSS selectors

Only the selector forms occurring in the sources are modelled: type,
class, `[k]`, `[k="v"]`, `[k*="v"]`, compounds of these, and a single
descendant combinator.  A selector list (comma-grouped selector) matches
a node when any member matches. -/

inductive SSel where
  | tagS (t : String)
  | clsS (c : String)
  | attrEqS (k v : String)
  | attrSubS (k v : String)
  | attrPresS (k : String)
  | andS (a b : SSel)

inductive Sel where
  | simple (s : SSel)
  | descend (anc : SSel) (d : SSel)

/-- Substring test (`v.includes(sub)` / CSS `[k*="v"]`). -/
def listInfix (sub s : List Char) : Bool :=
  s.tails.any (fun t => sub.isPrefixOf t)

/-- Does a simple selector match a node (no context needed)? -/
def SSel.smatches : SSel → DNode → Bool
  | .tagS t, n => n.tag = t
  | .clsS c, n => n.classes.contains c
  | .attrEqS k v, n => n.attr k = some v
  | .attrSubS k v, n => match n.attr k with
    | some w => listInfix v.data w.data
    | none => false
  | .attrPresS k, n => (n.attr k).isSome
  | .andS a b, n => a.smatches n && b.smatches n

/-- Does a selector match a node with the given ancestor chain? -/
def Sel.matchesAt : Sel → List DNode → DNode → Bool
  | .simple s, _, n => s.smatches n
  | .descend a d, anc, n => d.smatches n && anc.any (fun m => a.smatches m)

/-- `root.querySelectorAll(sel1, …, selk)`: all proper descendants, in
document order, matching some member of the selector list. -/
def qsa (root : DNode) (sels : List Sel) : List DNode :=
  ((descendantsOf root).filter
    (fun p => sels.any (fun s => s.matchesAt p.1 p.2))).map (·.2)

/-- `root.querySelector(…)`: the first match in document order. -/
def qs (root : DNode) (sels : List Sel) : Option DNode :=
  (qsa root sels).head?

/-! ### Node-local mutation by identity

The sources mutate nodes found by a query (`style.display = …`,
`classList.add/remove`).  A `NodeList` is a static snapshot, so we model
a mutation pass as: collect the `nid`s of the matched nodes, then rewrite
every node of the tree whose `nid` is in the set, applying a display
transformer and a class-list transformer. -/

mutual

def DNode.updIds (ids : List Nat) (fd : String → String)
    (fc : List String → List String) : DNode → DNode
  | .elem i t c a d x ch =>
    if i ∈ ids then
      .elem i t (fc c) a (fd d) x (DForest.updIds ids fd fc ch)
    else
      .elem i t c a d x (DForest.updIds ids fd fc ch)

def DForest.updIds (ids : List Nat) (fd : String → String)
    (fc : List String → List String) : DForest → DForest
  | .nil => .nil
  | .cons n f => .cons (DNode.updIds ids fd fc n) (DForest.updIds ids fd fc f)

end

/-- `classList.add c`: appends unless present. -/
def addClass (c : String) (l : List String) : List String :=
  if l.contains c then l else l ++ [c]

/-- `classList.remove c`. -/
def removeClass (c : String) (l : List String) : List String :=
  l.filter (fun d => d ≠ c)

mutual

/-- `cloneNode(true)` with identities reallocated by an offset: the clone
of a node with identity `i` gets identity `i + off` (a fresh identity
whenever `off` exceeds every identity in use). -/
def DNode.shiftIds (off : Nat) : DNode → DNode
  | .elem i t c a d x ch => .elem (i + off) t c a d x (DForest.shiftIds off ch)

def DForest.shiftIds (off : Nat) : DForest → DForest
  | .nil => .nil
  | .cons n f => .cons (DNode.shiftIds off n) (DForest.shiftIds off f)

end

mutual

/-- Erase node identities: two nodes with equal `strip` are structural
copies of one another. -/
def DNode.strip : DNode → DNode
  | .elem _ t c a d x ch => .elem 0 t c a d x (DForest.strip ch)

def DForest.strip : DForest → DForest
  | .nil => .nil
  | .cons n f => .cons (DNode.strip n) (DForest.strip f)

end

/-! ## `RepositoryFinder.js` — item discovery -/

/-- The name-bearing element lookup used inside `findRepositoryItems`
(RepositoryFinder.js line 86): the six comma-grouped selectors
`h3 a, a[itemprop="name codeRepository"], .wb-break-all a,
[data-testid="repository-name"], [itemprop="name"], .Link--primary`. -/
def nameSelsSix : List Sel :=
  [ .descend (.tagS "h3") (.tagS "a"),
    .simple (.andS (.tagS "a") (.attrEqS "itemprop" "name codeRepository")),
    .descend (.clsS "wb-break-all") (.tagS "a"),
    .simple (.attrEqS "data-testid" "repository-name"),
    .simple (.attrEqS "itemprop" "name"),
    .simple (.clsS "Link--primary") ]

/-- The prioritized selector list of `getRepositoryName`
(RepositoryFinder.js lines 105–113 and, identically, GroupManager.js
lines 65–73): the six above followed by `a[href*="/"][title]`. -/
def nameSelectors : List Sel :=
  nameSelsSix ++
    [ .simple (.andS (.andS (.tagS "a") (.attrSubS "href" "/")) (.attrPresS "title")) ]

/-- `itemSelectors` of `findRepositoryItems` (RepositoryFinder.js
lines 63–79). -/
def itemSelectors : List Sel :=
  [ .simple (.attrEqS "itemprop" "owns"),
    .simple (.attrEqS "data-testid" "repository-list-item"),
    .simple (.clsS "repo-list-item"),
    .simple (.clsS "public"),
    .simple (.clsS "private"),
    .simple (.clsS "source"),
    .simple (.clsS "fork"),
    .simple (.clsS "archived"),
    .simple (.andS (.tagS "li") (.attrEqS "itemprop" "owns")),
    .simple (.andS (.tagS "div") (.attrEqS "data-testid" "repository-item")),
    .simple (.andS (.tagS "li") (.attrEqS "data-test-selector" "repository-list-item")),
    .simple (.andS (.tagS "div") (.attrEqS "data-test-selector" "repository-list-item")),
    .simple (.clsS "Box-row"),
    .simple (.andS (.tagS "li") (.attrEqS "itemprop" "codeRepository")),
    .simple (.andS (.tagS "div") (.attrEqS "itemprop" "codeRepository")) ]

/-- `items.includes(item)`: JavaScript reference equality, i.e. node
identity. -/
def includesRef (items : List DNode) (n : DNode) : Bool :=
  items.any (fun m => m.nid = n.nid)

/-- The acceptance test of `findRepositoryItems` (line 86–87): a
name-bearing element, looked up by the six-selector group, exists —
only existence is checked, not its text. -/
def acceptItem (item : DNode) : Bool :=
  (qs item nameSelsSix).isSome

/-- The `found.forEach` body of `findRepositoryItems` (lines 85–90). -/
def collectItem (items : List DNode) (item : DNode) : List DNode :=
  if acceptItem item && !(includesRef items item) then items ++ [item]
  else items

/-- The `itemSelectors.forEach` body of `findRepositoryItems`. -/
def collectFromSel (container : DNode) (items : List DNode) (sel : Sel) :
    List DNode :=
  (qsa container [sel]).foldl collectItem items

/-- `RepositoryFinder.findRepositoryItems` (lines 62–97): for each item
selector in order, for each match in document order, accept it when a
name-bearing element (six-selector group) exists and it is not already
collected. -/
def findRepositoryItems (container : DNode) : List DNode :=
  itemSelectors.foldl (collectFromSel container) []

/-- `getRepositoryName` (RepositoryFinder.js lines 104–122 /
GroupManager.js lines 64–82): first selector whose first match has
non-empty trimmed text content wins; empty string otherwise. -/
def getRepositoryNameFrom : List Sel → DNode → String
  | [], _ => ""
  | sel :: rest, item =>
    match qs item [sel] with
    | some el =>
      if jsTrim el.textContent = "" then getRepositoryNameFrom rest item
      else jsTrim el.textContent
    | none => getRepositoryNameFrom rest item

def getRepositoryName (item : DNode) : String :=
  getRepositoryNameFrom nameSelectors item

/-! ## `GroupManager.extractGroups` (lines 15–29)

A JavaScript `Map` in insertion order, modelled as an association list. -/

/-- The group key computed for one item. -/
def keyOf (customGroups : List (List Char)) (item : DNode) : List Char :=
  getGroupName customGroups (getRepositoryName item).data

/-- One step of the `items.forEach` body: create the group on first
encounter, then push the item onto its list. -/
def addToGroup (gs : List (List Char × List DNode)) (k : List Char)
    (it : DNode) : List (List Char × List DNode) :=
  if gs.any (fun p => p.1 = k) then
    gs.map (fun p => if p.1 = k then (p.1, p.2 ++ [it]) else p)
  else gs ++ [(k, [it])]

/-- `GroupManager.extractGroups`. -/
def extractGroups (customGroups : List (List Char)) (items : List DNode) :
    List (List Char × List DNode) :=
  items.foldl (fun gs it => addToGroup gs (keyOf customGroups it) it) []

/-! ## `GroupCard.js` — the group card component

Created elements receive fresh node identities from an explicit base `b`;
one card consumes six identities.  An `innerHTML`-assigned SVG icon is
kept as opaque markup in the icon element's `text` field (no claim
inspects inside the icon). -/

/-- `iconMap` of `GroupCard.getGroupIcon` (GroupCard.js lines 99-108). -/
def iconMap : List (String × String) :=
  [ ("All Repositories",
    "<svg width=\"20\" height=\"20\" viewBox=\"0 0 24 24\" fill=\"none\" stroke=\"currentColor\" stroke-width=\"2\" stroke-linecap=\"round\" stroke-linejoin=\"round\"><path d=\"M3 9l9-7 9 7v11a2 2 0 0 1-2 2H5a2 2 0 0 1-2-2z\"></path><polyline points=\"9 22 9 12 15 12 15 22\"></polyline></svg>"),
      ("General",
    "<svg width=\"20\" height=\"20\" viewBox=\"0 0 24 24\" fill=\"none\" stroke=\"currentColor\" stroke-width=\"2\" stroke-linecap=\"round\" stroke-linejoin=\"round\"><rect x=\"3\" y=\"3\" width=\"18\" height=\"18\" rx=\"2\" ry=\"2\"></rect><line x1=\"9\" y1=\"9\" x2=\"15\" y2=\"9\"></line><line x1=\"9\" y1=\"15\" x2=\"15\" y2=\"15\"></line></svg>"),
      ("Web",
    "<svg width=\"20\" height=\"20\" viewBox=\"0 0 24 24\" fill=\"none\" stroke=\"currentColor\" stroke-width=\"2\" stroke-linecap=\"round\" stroke-linejoin=\"round\"><circle cx=\"12\" cy=\"12\" r=\"10\"></circle><polygon points=\"10 8 16 12 10 16 10 8\"></polygon></svg>"),
      ("Api",
    "<svg width=\"20\" height=\"20\" viewBox=\"0 0 24 24\" fill=\"none\" stroke=\"currentColor\" stroke-width=\"2\" stroke-linecap=\"round\" stroke-linejoin=\"round\"><path d=\"M14 2H6a2 2 0 0 0-2 2v16a2 2 0 0 0 2 2h12a2 2 0 0 0 2-2V8z\"></path><polyline points=\"14 2 14 8 20 8\"></polyline><line x1=\"16\" y1=\"13\" x2=\"8\" y2=\"13\"></line><line x1=\"16\" y1=\"17\" x2=\"8\" y2=\"17\"></line><polyline points=\"10 9 9 9 8 9\"></polyline></svg>"),
      ("Mobile",
    "<svg width=\"20\" height=\"20\" viewBox=\"0 0 24 24\" fill=\"none\" stroke=\"currentColor\" stroke-width=\"2\" stroke-linecap=\"round\" stroke-linejoin=\"round\"><rect x=\"5\" y=\"2\" width=\"14\" height=\"20\" rx=\"2\" ry=\"2\"></rect><line x1=\"12\" y1=\"18\" x2=\"12.01\" y2=\"18\"></line></svg>"),
      ("Backend",
    "<svg width=\"20\" height=\"20\" viewBox=\"0 0 24 24\" fill=\"none\" stroke=\"currentColor\" stroke-width=\"2\" stroke-linecap=\"round\" stroke-linejoin=\"round\"><ellipse cx=\"12\" cy=\"5\" rx=\"9\" ry=\"3\"></ellipse><path d=\"M21 12c0 1.66-4 3-9 3s-9-1.34-9-3\"></path><path d=\"M3 5v14c0 1.66 4 3 9 3s9-1.34 9-3V5\"></path></svg>"),
      ("Frontend",
    "<svg width=\"20\" height=\"20\" viewBox=\"0 0 24 24\" fill=\"none\" stroke=\"currentColor\" stroke-width=\"2\" stroke-linecap=\"round\" stroke-linejoin=\"round\"><rect x=\"2\" y=\"3\" width=\"20\" height=\"14\" rx=\"2\" ry=\"2\"></rect><line x1=\"8\" y1=\"21\" x2=\"16\" y2=\"21\"></line><line x1=\"12\" y1=\"17\" x2=\"12\" y2=\"21\"></line></svg>"),
      ("Default",
    "<svg width=\"20\" height=\"20\" viewBox=\"0 0 24 24\" fill=\"none\" stroke=\"currentColor\" stroke-width=\"2\" stroke-linecap=\"round\" stroke-linejoin=\"round\"><path d=\"M22 19a2 2 0 0 1-2 2H4a2 2 0 0 1-2-2V5a2 2 0 0 1 2-2h5l2 3h9a2 2 0 0 1 2 2z\"></path></svg>") ]

/-- `getGroupIcon`: `iconMap[groupName] || iconMap['Default']`. -/
def getGroupIcon (groupName : String) : String :=
  match iconMap.lookup groupName with
  | some s => s
  | none => (iconMap.lookup "Default").getD ""

/-- `GroupCard.create` (GroupCard.js lines 24–41, 47–91): the card
carries class `gitlab-group-card` and `data-group-id`, and contains a
header with the icon and the title/count pair. -/
def groupCardCreate (b : Nat) (name : String) (items : List DNode)
    (groupId : String) : DNode :=
  .elem b "div" ["gitlab-group-card"] [("data-group-id", groupId)] "" ""
    (.cons
      (.elem (b + 1) "div" ["gitlab-card-header"] [] "" ""
        (.cons (.elem (b + 2) "div" ["gitlab-card-icon"] [] ""
            (getGroupIcon name) .nil)
          (.cons (.elem (b + 3) "div" ["gitlab-card-title-count"] [] "" ""
              (.cons (.elem (b + 4) "h4" ["gitlab-card-title"] [] "" name .nil)
                (.cons (.elem (b + 5) "span" ["gitlab-card-count"] [] ""
                    (toString items.length) .nil)
                  .nil)))
            .nil)))
      .nil)

/-! ## `RepositoryProcessor.js`

The class defines every method twice (lines 19–164 and 171–307) with
identical bodies; in JavaScript the later definition wins, so each is
embedded once. -/

/-- Small helpers for the container mutations of the processor. -/
def DNode.setChildren (n : DNode) (ch : DForest) : DNode :=
  match n with
  | .elem i t c a d x _ => .elem i t c a d x ch

def DNode.setClasses (n : DNode) (c : List String) : DNode :=
  match n with
  | .elem i t _ a d x ch => .elem i t c a d x ch

/-- `displayAllRepos` (lines 210–233): skip when the container already
carries the processed marker; otherwise rebuild the children as the items
followed by the non-item children (excluding the grouping sections). -/
def displayAllRepos (container : DNode) (items : List DNode) : DNode :=
  if container.attr "data-gitlab-processed" = some "true" then container
  else
    let nonRepoItems := container.children.toList.filter (fun child =>
      !(includesRef items child) &&
      !(child.classes.contains "gitlab-cards-section") &&
      !(child.classes.contains "gitlab-repos-section"))
    container.setChildren (DForest.ofList (items ++ nonRepoItems))

/-- `createGroupCardsSection` (lines 235–254): the cards strip — an
`All Repositories` card first, then one card per group in map order. -/
def createGroupCardsSection (groups : List (List Char × List DNode))
    (b : Nat) : DNode :=
  .elem b "div" ["gitlab-cards-section"] [] "" ""
    (.cons
      (.elem (b + 1) "div" ["gitlab-group-cards-container"] [] "" ""
        (DForest.ofList
          (groupCardCreate (b + 2) "All Repositories"
              ((groups.map (·.2)).flatten) "all" ::
            (groups.enum.map (fun gi =>
              groupCardCreate (b + 2 + 6 * (gi.1 + 1)) ⟨gi.2.1⟩ gi.2.2 ⟨gi.2.1⟩)))))
      .nil)

/-- Identities consumed by `createGroupCardsSection`. -/
def cardsIdCount (groups : List (List Char × List DNode)) : Nat :=
  2 + 6 * (groups.length + 1)

/-- `createRepoContainers` (lines 256–289): one hidden holder per group
holding the original item nodes, preceded by a hidden `all` holder
holding a deep clone of every item (`cloneNode(true)`, fresh identities
via the offset `off`). -/
def createRepoContainers (groups : List (List Char × List DNode))
    (container : DNode) (b off : Nat) : DNode :=
  .elem b "div" ["gitlab-repos-section"] [] "" ""
    (DForest.ofList
      (.elem (b + 1) container.tag
          (addClass "gitlab-repo-container" container.classes)
          [("data-group-id", "all")] "none" ""
          (DForest.ofList
            (((groups.map (·.2)).flatten).map (DNode.shiftIds off))) ::
        (groups.enum.map (fun gi =>
          DNode.elem (b + 2 + gi.1) container.tag
            (addClass "gitlab-repo-container" container.classes)
            [("data-group-id", ⟨gi.2.1⟩)] "none" ""
            (DForest.ofList gi.2.2)))))

/-- The synchronous prelude of `autoShowFirstGroup` (lines 291–307):
which card identifier the deferred click targets.  The source computes
`Array.from(this.groupManager.extractGroups([]).keys())[0] || 'all'`:
indexing `[0]` into the keys of `extractGroups([])`, whose argument is
the empty array.  An `undefined` result (or an empty-string key) is
falsy, so the fallback `'all'` applies. -/
def autoShowFirstGroupId (customGroups : List (List Char)) : String :=
  match ((extractGroups customGroups []).map (·.1)).head? with
  | some k => if k.isEmpty then "all" else ⟨k⟩
  | none => "all"

/-- The container state after the first `k` mutations of the `try` block
of `createGroupCards` (0: untouched, 1: after `innerHTML = ''`, 2: after
`classList.add`, anything larger: after `appendChild(fragment)`). -/
def buildStep (container : DNode) (groups : List (List Char × List DNode))
    (b off : Nat) (k : Nat) : DNode :=
  if k = 0 then container
  else
    let c1 := container.setChildren .nil
    if k = 1 then c1
    else
      let c2 := c1.setClasses (addClass "gitlab-grouped-repositories" c1.classes)
      if k = 2 then c2
      else
        c2.setChildren
          (.cons (createGroupCardsSection groups b)
            (.cons (createRepoContainers groups container
                (b + cardsIdCount groups) off)
              .nil))

/-- `createGroupCards` (lines 171–208) with an explicit fault oracle for
the `try` block.  `failAt = none` runs the block to completion;
`failAt = some k` makes the block throw after its first `k` mutations of
the container, which triggers the `catch`: restore the snapshotted
content and classes, then fall back to `displayAllRepos`.
`innerHTML = originalContent` re-parses the serialized snapshot,
allocating fresh node identities, modelled by `shiftIds off`; `off` is
also the clone offset of the repo containers. -/
def createGroupCards (customGroups : List (List Char)) (container : DNode)
    (items : List DNode) (b off : Nat) (failAt : Option Nat) : DNode :=
  let groups := extractGroups customGroups items
  if groups.length ≤ 1 then displayAllRepos container items
  else
    let originalContent := container.children
    let originalClasses := container.classes
    match failAt with
    | none => buildStep container groups b off 3
    | some k =>
      let broken := buildStep container groups b off k
      let restored :=
        (broken.setChildren (DForest.shiftIds off originalContent)).setClasses
          originalClasses
      displayAllRepos restored items

/-! ## `GroupDisplayManager.js` — holder/card visibility

Mutations are applied to the container tree by node identity; each query
runs on the tree as mutated so far, exactly as in the sequential source.
`currentActiveGroup` is the manager's only state. -/

def reposSectionSel : List Sel := [.simple (.clsS "gitlab-repos-section")]

def repoContainerSel : List Sel := [.simple (.clsS "gitlab-repo-container")]

def groupCardSel : List Sel := [.simple (.clsS "gitlab-group-card")]

/-- `.gitlab-repo-container[data-group-id="gid"]`. -/
def repoContainerWithId (gid : String) : List Sel :=
  [.simple (.andS (.clsS "gitlab-repo-container") (.attrEqS "data-group-id" gid))]

/-- `.gitlab-group-card[data-group-id="gid"]`. -/
def cardWithId (gid : String) : List Sel :=
  [.simple (.andS (.clsS "gitlab-group-card") (.attrEqS "data-group-id" gid))]

/-- `hideAllRepoContainers` (lines 38–45): hide every holder inside the
repos section (`rsId` is the held reference to that section). -/
def hideAllRepoContainers (tree : DNode) (rsId : Nat) : DNode :=
  match findById tree rsId with
  | some rs =>
    DNode.updIds ((qsa rs repoContainerSel).map DNode.nid) (fun _ => "none")
      id tree
  | none => tree

/-- `showSelectedContainer` (lines 52–66): show the holder matching the
group id, and reset the display of each of its children; do nothing but
log when absent. -/
def showSelectedContainer (tree : DNode) (rsId : Nat) (gid : String) : DNode :=
  match findById tree rsId with
  | some rs =>
    match qs rs (repoContainerWithId gid) with
    | some sc =>
      let t1 := DNode.updIds [sc.nid] (fun _ => "block") id tree
      DNode.updIds (sc.children.toList.map DNode.nid) (fun _ => "") id t1
    | none => tree
  | none => tree

/-- `updateActiveCard` (lines 73–86): deactivate every card, then
activate the first card matching the group id, when present. -/
def updateActiveCard (tree : DNode) (gid : String) : DNode :=
  let t1 := DNode.updIds ((qsa tree groupCardSel).map DNode.nid) id
    (removeClass "active") tree
  match qs t1 (cardWithId gid) with
  | some c => DNode.updIds [c.nid] id (addClass "active") t1
  | none => t1

/-- `GroupDisplayManager.showGroupRepos` (lines 15–32); `cag` is the
incoming `currentActiveGroup`, the second component of the result the
outgoing one.  Without a repos section the method only logs and returns.
(`scrollIntoView` has no model-visible effect.) -/
def showGroupRepos (cag : Option String) (gid : String) (container : DNode) :
    DNode × Option String :=
  match qs container reposSectionSel with
  | none => (container, cag)
  | some rs =>
    let t1 := hideAllRepoContainers container rs.nid
    let t2 := showSelectedContainer t1 rs.nid gid
    let t3 := updateActiveCard t2 gid
    (t3, some gid)

/-! ## `main.js` — orchestration state

For the settings-mutation claim only the processing guards matter: a
page container is summarized by its identity, its item count and its
`data-gitlab-processed` marker; the extension state carries the finder's
claimed-container cache, the custom groups and the grouping flag. -/

structure PageContainer where
  cid : Nat
  itemCount : Nat
  gitlabProcessed : Bool
deriving DecidableEq

structure ExtensionState where
  finderCache : List Nat
  containers : List PageContainer
  customGroups : List (List Char)
  groupingEnabled : Bool
deriving DecidableEq

/-- `RepositoryFinder.findRepositoryContainers` at the orchestration
level (RepositoryFinder.js lines 14–45): containers not in the claimed
cache that hold at least one item; they are added to the cache. -/
def findContainersStep (st : ExtensionState) : List PageContainer × List Nat :=
  let found := st.containers.filter
    (fun c => !(st.finderCache.contains c.cid) && 0 < c.itemCount)
  (found, st.finderCache ++ found.map (·.cid))

/-- `processRepositories` (main.js lines 150–179): each found container
holding items is processed only when its `data-gitlab-processed` marker
is unset, and then marked.  The second component collects the identities
of the containers actually (re-)processed in this run. -/
def processRepositories (st : ExtensionState) : ExtensionState × List Nat :=
  let found := (findContainersStep st).1
  let cache2 := (findContainersStep st).2
  let toProcess := (found.filter
    (fun c => 0 < c.itemCount && !c.gitlabProcessed)).map (·.cid)
  let containers2 := st.containers.map (fun c =>
    if toProcess.contains c.cid then
      { c with gitlabProcessed := true }
    else c)
  ({ st with finderCache := cache2, containers := containers2 }, toProcess)

/-- `RepositoryFinder.clearProcessedCache` (lines 127–129). -/
def clearProcessedCache (st : ExtensionState) : ExtensionState :=
  { st with finderCache := [] }

/-- `handleAddGroup` (main.js lines 238–248): add the custom group,
propagate it, clear the finder cache, re-run the pipeline. -/
def handleAddGroup (g : List Char) (st : ExtensionState) :
    ExtensionState × List Nat :=
  let st1 := { st with customGroups :=
    if st.customGroups.contains g then st.customGroups
    else st.customGroups ++ [g] }
  processRepositories (clearProcessedCache st1)

/-- `handleRemoveGroup` (main.js lines 254–264). -/
def handleRemoveGroup (g : List Char) (st : ExtensionState) :
    ExtensionState × List Nat :=
  let st1 := { st with customGroups := st.customGroups.filter (fun h => h ≠ g) }
  processRepositories (clearProcessedCache st1)

/-- `handleToggleGrouping` (main.js lines 215–220). -/
def handleToggleGrouping (enabled : Bool) (st : ExtensionState) :
    ExtensionState × List Nat :=
  let st1 := { st with groupingEnabled := enabled }
  processRepositories (clearProcessedCache st1)

/-! ## Spec-side definitions and concrete example documents

`specSeparatorClassify` follows the words of the specification of the
separator heuristic (spec §4.2 step 3–4), to be compared with the
embedded `getGroupName`: scan hyphen, underscore, slash, period, space
in that order; the first separator occurring at an index greater than 0
whose preceding substring has length at least 2 yields that substring
with its first character capitalized and the remainder lower-cased;
otherwise `General`. -/

/-- Does this separator yield a valid split of `s` (first occurrence at
a positive index, preceding substring of length at least 2)? -/
def specValidAt (s : List Char) (sep : Char) : Bool :=
  match jsIndexOfChar s sep with
  | some i => decide (0 < i) && decide (2 ≤ (s.take i).length)
  | none => false

/-- The substring before the first occurrence of the separator. -/
def specPrefixAt (s : List Char) (sep : Char) : List Char :=
  match jsIndexOfChar s sep with
  | some i => s.take i
  | none => []

/-- First character capitalized, remainder lower-cased. -/
def specCapWord : List Char → List Char
  | [] => []
  | c :: cs => c.toUpper :: cs.map Char.toLower

/-- The separator heuristic as worded by the specification. -/
def specSeparatorClassify (s : List Char) : List Char :=
  match separators.find? (specValidAt s) with
  | some sep => specCapWord (specPrefixAt s sep)
  | none => generalName

/-- First-seen deduplication of a key sequence (the insertion order of a
JavaScript `Map` built by repeated `set`). -/
def firstSeenKeys (ks : List (List Char)) : List (List Char) :=
  ks.foldl (fun acc k => if k ∈ acc then acc else acc ++ [k]) []

/-- A minimal repository item: a list entry marked `itemprop="owns"`
whose `h3 > a` holds the repository name. -/
def demoItem (i : Nat) (name : String) : DNode :=
  .elem i "div" [] [("itemprop", "owns")] "" ""
    (.cons
      (.elem (i + 1) "h3" [] [] "" ""
        (.cons (.elem (i + 2) "a" [] [] "" name .nil) .nil))
      .nil)

/-- The specification's scenario items `web-ui`, `web-api`, `api-server`,
grouping as `Web` then `Api`. -/
def demoWebApiItems : List DNode :=
  [demoItem 10 "web-ui", demoItem 20 "web-api", demoItem 30 "api-server"]

/-- A container holding the scenario items. -/
def demoContainer : DNode :=
  .elem 1 "div" [] [] "" "" (DForest.ofList demoWebApiItems)

/-- An item whose only name-bearing descendant (`h3 > a`) has empty text:
accepted by the discovery filter, yet its display name is empty. -/
def blankNameItem : DNode :=
  .elem 2 "div" [] [("itemprop", "owns")] "" ""
    (.cons
      (.elem 3 "h3" [] [] "" ""
        (.cons (.elem 4 "a" [] [] "" "" .nil) .nil))
      .nil)

/-- A container holding only `blankNameItem`. -/
def blankNameContainer : DNode :=
  .elem 1 "div" [] [] "" "" (.cons blankNameItem .nil)

/-! ## Observation helpers and further concrete documents -/

/-- The nodes of a forest (each tree's nodes in document order). -/
def nodesOfF (f : DForest) : List DNode :=
  (DForest.walk [] f).map (·.2)

/-- The display style of the node with identity `i`. -/
def displayOfId (t : DNode) (i : Nat) : Option String :=
  (findById t i).map DNode.display

/-- The class list of the node with identity `i`. -/
def classesOfId (t : DNode) (i : Nat) : Option (List String) :=
  (findById t i).map DNode.classes

/-- A grouped container for the display-manager claims: a card strip
whose only card carries `data-group-id="g"`, and a repos section whose
only holder carries `data-group-id="x"` — a holder for `g` is absent
while a card for `g` is present. -/
def lonelyHolder : DNode :=
  .elem 5 "div" ["gitlab-repo-container"] [("data-group-id", "x")] "block" ""
    (.cons (.elem 6 "div" [] [] "" "repo-x" .nil) .nil)

def lonelyCard : DNode :=
  .elem 3 "div" ["gitlab-group-card"] [("data-group-id", "g")] "" "" .nil

def cexContainerC10 : DNode :=
  .elem 1 "div" ["gitlab-grouped-repositories"] [] "" ""
    (.cons (.elem 2 "div" ["gitlab-cards-section"] [] "" ""
        (.cons lonelyCard .nil))
      (.cons (.elem 4 "div" ["gitlab-repos-section"] [] "" ""
          (.cons lonelyHolder .nil))
        .nil))

/-- A container with no repos section at all. -/
def noSectionContainer : DNode :=
  .elem 1 "div" [] [] "" ""
    (.cons (.elem 2 "div" ["gitlab-cards-section"] [] "" "" .nil) .nil)

/-- Does a simple selector avoid testing for the class `a`?  (Used to
show that removing or adding the class `active` does not change which
nodes the section/holder/card selectors match.) -/
def SSel.avoidsCls (a : String) : SSel → Bool
  | .tagS _ => true
  | .clsS c => c ≠ a
  | .attrEqS _ _ => true
  | .attrSubS _ _ => true
  | .attrPresS _ => true
  | .andS s1 s2 => s1.avoidsCls a && s2.avoidsCls a

def Sel.avoidsCls (a : String) : Sel → Bool
  | .simple s => s.avoidsCls a
  | .descend s1 s2 => s1.avoidsCls a && s2.avoidsCls a

/-! # Theorems -/

/-! ## Generic facts about the model -/

theorem DForest.toList_ofList (l : List DNode) :
    (DForest.ofList l).toList = l := by
  induction l with
  | nil => rfl
  | cons n l ih => simp [DForest.ofList, DForest.toList, ih]

/-- The combined structural induction principle for the mutual tree type. -/
theorem dnodeMutualInd {P : DNode → Prop} {Q : DForest → Prop}
    (h1 : ∀ nid t c a d x ch, Q ch → P (.elem nid t c a d x ch))
    (h2 : Q .nil)
    (h3 : ∀ n f, P n → Q f → Q (.cons n f)) :
    (∀ n, P n) ∧ (∀ f, Q f) :=
  ⟨fun n => @DNode.rec P Q h1 h2 h3 n, fun f => @DForest.rec P Q h1 h2 h3 f⟩

/-! ## Character facts -/

theorem charOfNat_toNat (m : Nat) (h : m < 55296) :
    (Char.ofNat m).toNat = m := by
  have hv : m.isValidChar := Or.inl h
  rw [Char.ofNat, dif_pos hv]
  simp [Char.ofNatAux, Char.toNat, UInt32.toNat]

theorem toUpper_toLower (c : Char) : (c.toLower).toUpper = c.toUpper := by
  unfold Char.toLower Char.toUpper
  by_cases h : 65 ≤ c.toNat ∧ c.toNat ≤ 90
  · rw [if_pos h]
    have hv : (Char.ofNat (c.toNat + 32)).toNat = c.toNat + 32 :=
      charOfNat_toNat _ (by omega)
    simp only [hv]
    rw [if_pos (by omega : (c.toNat + 32 ≥ 97 ∧ c.toNat + 32 ≤ 122)),
      if_neg (by omega : ¬(c.toNat ≥ 97 ∧ c.toNat ≤ 122))]
    have h32 : c.toNat + 32 - 32 = c.toNat := by omega
    rw [h32, Char.ofNat_toNat]
  · rw [if_neg h]

/-! ## Classifier lemmas -/

/-- Code-vs-spec agreement of the capitalization step. -/
theorem capFirst_lower (w : List Char) : jsCapFirst (jsLower w) = specCapWord w := by
  cases w with
  | nil => rfl
  | cons c cs => simp [jsCapFirst, jsLower, specCapWord, toUpper_toLower]

/-- The separator loop is the first-valid-separator rule of the spec. -/
theorem sepScan_eq_spec (s : List Char) (seps : List Char) :
    sepScan s seps =
      match seps.find? (specValidAt s) with
      | some sep => some (specCapWord (specPrefixAt s sep))
      | none => none := by
  induction seps with
  | nil => rfl
  | cons sep rest ih =>
    rw [sepScan]
    cases hio : jsIndexOfChar s sep with
    | none =>
      have hval : specValidAt s sep = false := by simp [specValidAt, hio]
      rw [List.find?_cons_of_neg _ (by simp [hval]), ih]
    | some i =>
      by_cases h0 : 0 < i
      · by_cases h2 : 2 ≤ (jsLower (s.take i)).length
        · have hval : specValidAt s sep = true := by
            have : (s.take i).length = (jsLower (s.take i)).length := by
              simp [jsLower]
            simp [specValidAt, hio, h0, this, h2]
          rw [List.find?_cons_of_pos _ (by simp [hval])]
          simp only [if_pos h0, if_pos h2]
          rw [capFirst_lower]
          simp [specPrefixAt, hio]
        · have hval : specValidAt s sep = false := by
            have : (s.take i).length = (jsLower (s.take i)).length := by
              simp [jsLower]
            simp [specValidAt, hio, this]
            intro
            omega
          rw [List.find?_cons_of_neg _ (by simp [hval])]
          simp only [if_pos h0, if_neg h2]
          exact ih
      · have hval : specValidAt s sep = false := by
          simp [specValidAt, hio]
          intro
          omega
        rw [List.find?_cons_of_neg _ (by simp [hval])]
        simp only [if_neg h0]
        exact ih

theorem sepScan_ne_nil {s g : List Char}
    (h : sepScan s separators = some g) : g ≠ [] := by
  rw [sepScan_eq_spec] at h
  cases hf : separators.find? (specValidAt s) with
  | none => rw [hf] at h; simp at h
  | some sep =>
    rw [hf] at h
    have hval : specValidAt s sep = true := List.find?_some hf
    have hg : specCapWord (specPrefixAt s sep) = g := by simpa using h
    subst hg
    unfold specValidAt at hval
    cases hio : jsIndexOfChar s sep with
    | none => rw [hio] at hval; simp at hval
    | some i =>
      rw [hio] at hval
      have h2 : 2 ≤ (s.take i).length :=
        of_decide_eq_true ((Bool.and_eq_true _ _).mp hval).2
      have hpre : specPrefixAt s sep = s.take i := by simp [specPrefixAt, hio]
      rw [hpre]
      cases ht : s.take i with
      | nil => rw [ht] at h2; simp at h2
      | cons c cs => simp [specCapWord]

/-- C6: for a name with no matching custom-group entry, classification
follows the spec's separator rule — scan hyphen, underscore, slash,
period, space in order; the first separator at a positive index whose
preceding substring has length at least 2 yields that substring with the
first character capitalized and the rest lower-cased, earlier separator
types taking precedence — and in particular `classify("ab-cd.ef") = "Ab"`,
`classify("a-b") = "General"`, `classify("ab-c") = "Ab"`. -/
theorem c6_separator_rule :
    (∀ customGroups s, (∀ g ∈ customGroups, customMatches s g = false) →
      getGroupName customGroups s = specSeparatorClassify s) ∧
    getGroupName [] ("ab-cd.ef".data) = "Ab".data ∧
    getGroupName [] ("a-b".data) = "General".data ∧
    getGroupName [] ("ab-c".data) = "Ab".data := by
  refine ⟨?_, by decide, by decide, by decide⟩
  intro cgs s h
  cases s with
  | nil => rfl
  | cons c cs =>
    have hfc : findCustom cgs (c :: cs) = none := by
      rw [findCustom, List.find?_eq_none]
      intro g hg
      simp [h g hg]
    simp only [getGroupName]
    rw [if_neg (by simp), hfc, sepScan_eq_spec, specSeparatorClassify]
    cases (separators.find? (specValidAt (c :: cs))) <;> rfl

/-- C6 witness: the general part of `c6_separator_rule` applied at the
concrete name `x-y` with no custom groups. -/
theorem c6_separator_rule_witness :
    getGroupName [] ("x-y".data) = specSeparatorClassify ("x-y".data) :=
  c6_separator_rule.1 [] ("x-y".data) (by decide)

/-- C7: for a non-empty name that case-insensitively starts with some
custom-group entry, classification returns the first matching entry of
the set, exactly as stored, before any separator heuristic runs. -/
theorem c7_custom_precedence (customGroups : List (List Char)) (s : List Char)
    (hs : s ≠ []) (h : ∃ g ∈ customGroups, customMatches s g = true) :
    ∃ g, findCustom customGroups s = some g ∧ g ∈ customGroups ∧
      customMatches s g = true ∧ getGroupName customGroups s = g := by
  have hsome : (findCustom customGroups s).isSome := by
    rw [findCustom, List.find?_isSome]
    obtain ⟨g, hg, hm⟩ := h
    exact ⟨g, hg, hm⟩
  obtain ⟨g, hg⟩ := Option.isSome_iff_exists.mp hsome
  refine ⟨g, hg, List.mem_of_find?_eq_some hg, List.find?_some hg, ?_⟩
  simp only [getGroupName]
  rw [if_neg (by simp [hs]), hg]

/-- C7 witness: `classify("api-server")` with custom set `{"Api"}` is
`"Api"` as stored. -/
theorem c7_custom_precedence_witness :
    ("api-server".data ≠ []) ∧
    (∃ g, findCustom ["Api".data] ("api-server".data) = some g ∧
      g ∈ [("Api".data)] ∧ customMatches ("api-server".data) g = true ∧
      getGroupName ["Api".data] ("api-server".data) = g) :=
  ⟨by decide,
    c7_custom_precedence ["Api".data] ("api-server".data) (by decide)
      ⟨"Api".data, by decide, by decide⟩⟩

/-- C8 counterexample: with the empty string as a custom-group entry —
a state of the CustomGroupSet — `classify("x")` returns the empty
string, so classification does not always return a non-empty group name. -/
theorem c8_empty_entry_counterexample :
    getGroupName [([] : List Char)] ['x'] = [] := by decide

/-- C8 (amended): for every string and every CustomGroupSet whose
entries are all non-empty, classification returns a non-empty group
name. -/
theorem c8_classification_total (customGroups : List (List Char))
    (s : List Char) (h : ∀ g ∈ customGroups, g ≠ []) :
    getGroupName customGroups s ≠ [] := by
  simp only [getGroupName]
  by_cases hs : s.isEmpty
  · rw [if_pos hs]; decide
  · rw [if_neg hs]
    cases hfc : findCustom customGroups s with
    | some g => exact h g (List.mem_of_find?_eq_some hfc)
    | none =>
      cases hsep : sepScan s separators with
      | some g => exact sepScan_ne_nil hsep
      | none => decide

/-- C8 witness: the amended totality theorem at `s = "api-server"`,
custom set `{"Api"}`. -/
theorem c8_classification_total_witness :
    getGroupName ["Api".data] ("api-server".data) ≠ [] :=
  c8_classification_total ["Api".data] ("api-server".data) (by decide)

/-- C1 (code evaluated at the failing input): the synchronous selection
of `autoShowFirstGroup` always targets the synthetic `all` card — it
reads the first key of `extractGroups([])`, which is empty for every
custom-group state — even though grouping the scenario items yields
`Web` as the first real group, which the claim (and the spec) expect to
be selected. -/
theorem c1_autoShow_always_targets_all :
    (∀ customGroups, autoShowFirstGroupId customGroups = "all") ∧
    ((extractGroups [] demoWebApiItems).map (·.1)).head? = some ("Web".data) ∧
    "Web" ≠ "all" := by
  refine ⟨fun cgs => rfl, by decide, by decide⟩

/-! ## C2 — settings mutations and the processed marker -/

/-- A container whose `data-gitlab-processed` marker is set is skipped by
every `processRepositories` run, whatever the finder cache holds. -/
theorem processed_never_reprocessed (st : ExtensionState) (c : PageContainer)
    (hn : (st.containers.map (·.cid)).Nodup)
    (hc : c ∈ st.containers) (hp : c.gitlabProcessed = true) :
    c.cid ∉ (processRepositories st).2 := by
  intro hmem
  simp only [processRepositories, findContainersStep, List.mem_map,
    List.mem_filter] at hmem
  obtain ⟨c', ⟨⟨hc', _⟩, hflags⟩, hcid⟩ := hmem
  have : c' = c := List.inj_on_of_nodup_map hn hc' hc hcid
  subst this
  rw [hp] at hflags
  simp at hflags

/-- C2 (code evaluated at the failing input): after any user mutation of
the custom-group set or of the grouping flag, the handler clears only the
finder's cache and re-runs the pipeline, but a container whose
`data-gitlab-processed` marker is set is still skipped — it is not
re-processed under the new settings, contrary to the claim. -/
theorem c2_settings_mutation_skips_processed (st : ExtensionState)
    (c : PageContainer) (g : List Char) (enabled : Bool)
    (hn : (st.containers.map (·.cid)).Nodup)
    (hc : c ∈ st.containers) (hp : c.gitlabProcessed = true) :
    c.cid ∉ (handleAddGroup g st).2 ∧
    c.cid ∉ (handleRemoveGroup g st).2 ∧
    c.cid ∉ (handleToggleGrouping enabled st).2 := by
  refine ⟨?_, ?_, ?_⟩ <;>
    exact processed_never_reprocessed _ c hn hc hp

/-- C2 witness: a concrete state with one processed container holding
three items; adding the custom group `api`, removing it, or toggling
grouping leaves the container unprocessed. -/
theorem c2_settings_mutation_skips_processed_witness :
    let st : ExtensionState :=
      { finderCache := [], containers := [⟨5, 3, true⟩],
        customGroups := [], groupingEnabled := true }
    (5 : Nat) ∉ (handleAddGroup ("api".data) st).2 ∧
    (5 : Nat) ∉ (handleRemoveGroup ("api".data) st).2 ∧
    (5 : Nat) ∉ (handleToggleGrouping false st).2 :=
  c2_settings_mutation_skips_processed _ ⟨5, 3, true⟩ ("api".data) false
    (by decide) (by decide) rfl

/-! ## C5 — the partition invariant of `extractGroups` -/

theorem firstSeenKeys_mem_aux (x : List Char) (l : List (List Char)) :
    ∀ acc, (x ∈ l.foldl (fun acc k => if k ∈ acc then acc else acc ++ [k]) acc ↔
      x ∈ acc ∨ x ∈ l) := by
  induction l with
  | nil => simp
  | cons k rest ih =>
    intro acc
    rw [List.foldl_cons, ih]
    by_cases hk : k ∈ acc
    · simp only [if_pos hk]
      constructor
      · rintro (h | h)
        · exact Or.inl h
        · exact Or.inr (List.mem_cons_of_mem _ h)
      · rintro (h | h)
        · exact Or.inl h
        · rcases List.mem_cons.mp h with rfl | h
          · exact Or.inl hk
          · exact Or.inr h
    · simp only [if_neg hk, List.mem_append, List.mem_singleton, List.mem_cons]
      tauto

theorem mem_firstSeenKeys (x : List Char) (l : List (List Char)) :
    x ∈ firstSeenKeys l ↔ x ∈ l := by
  rw [firstSeenKeys, firstSeenKeys_mem_aux]
  simp

theorem firstSeenKeys_append_one (l : List (List Char)) (k : List Char) :
    firstSeenKeys (l ++ [k]) =
      if k ∈ firstSeenKeys l then firstSeenKeys l else firstSeenKeys l ++ [k] := by
  rw [firstSeenKeys, List.foldl_append]
  rfl

/-- Keys after one bucket step. -/
theorem addToGroup_keys (gs : List (List Char × List DNode)) (k : List Char)
    (it : DNode) :
    (addToGroup gs k it).map (·.1) =
      if k ∈ gs.map (·.1) then gs.map (·.1) else gs.map (·.1) ++ [k] := by
  by_cases h : gs.any (fun p => p.1 = k)
  · have hk : k ∈ gs.map (·.1) := by
      obtain ⟨p, hp, hpk⟩ := List.any_eq_true.mp h
      exact List.mem_map.mpr ⟨p, hp, by simpa using hpk⟩
    rw [addToGroup, if_pos h, if_pos hk, List.map_map]
    apply List.map_congr_left
    intro p _
    by_cases hpk : p.1 = k <;> simp [hpk]
  · have hk : k ∉ gs.map (·.1) := by
      intro hmem
      obtain ⟨p, hp, hpk⟩ := List.mem_map.mp hmem
      exact h (List.any_eq_true.mpr ⟨p, hp, by simpa using hpk⟩)
    rw [addToGroup, if_neg h, if_neg hk]
    simp

/-- Key distinctness is preserved by one bucket step. -/
theorem addToGroup_nodup (gs : List (List Char × List DNode)) (k : List Char)
    (it : DNode) (hn : (gs.map (·.1)).Nodup) :
    ((addToGroup gs k it).map (·.1)).Nodup := by
  rw [addToGroup_keys]
  by_cases hk : k ∈ gs.map (·.1)
  · rwa [if_pos hk]
  · rw [if_neg hk]
    have hd : List.Disjoint (gs.map (·.1)) [k] := by
      intro a ha hb
      rw [List.mem_singleton] at hb
      subst hb
      exact hk ha
    exact hn.append (List.nodup_singleton k) hd


/-- Membership in the result of one bucket step. -/
theorem addToGroup_mem {gs : List (List Char × List DNode)} {k : List Char}
    {it : DNode} {k' : List Char} {l' : List DNode}
    (h : (k', l') ∈ addToGroup gs k it) :
    (k' = k ∧ k ∉ gs.map (·.1) ∧ l' = [it]) ∨
    (k' = k ∧ ∃ l0, (k, l0) ∈ gs ∧ l' = l0 ++ [it]) ∨
    (k' ≠ k ∧ (k', l') ∈ gs) := by
  by_cases hany : gs.any (fun p => p.1 = k)
  · rw [addToGroup, if_pos hany] at h
    obtain ⟨⟨k0, l0⟩, hp, hupd⟩ := List.mem_map.mp h
    by_cases hk0 : k0 = k
    · rw [if_pos (by simpa using hk0)] at hupd
      rw [Prod.mk.injEq] at hupd
      obtain ⟨rfl, rfl⟩ := hupd
      exact Or.inr (Or.inl ⟨hk0, l0, hk0 ▸ hp, rfl⟩)
    · rw [if_neg (by simpa using hk0)] at hupd
      rw [Prod.mk.injEq] at hupd
      obtain ⟨rfl, rfl⟩ := hupd
      exact Or.inr (Or.inr ⟨hk0, hp⟩)
  · rw [addToGroup, if_neg hany] at h
    rcases List.mem_append.mp h with h | h
    · have hne : k' ≠ k := by
        intro hkk
        exact hany (List.any_eq_true.mpr ⟨(k', l'), h, by simp [hkk]⟩)
      exact Or.inr (Or.inr ⟨hne, h⟩)
    · rw [List.mem_singleton, Prod.mk.injEq] at h
      obtain ⟨rfl, rfl⟩ := h
      refine Or.inl ⟨rfl, ?_, rfl⟩
      intro hmem
      obtain ⟨p, hp, hpk⟩ := List.mem_map.mp hmem
      exact hany (List.any_eq_true.mpr ⟨p, hp, by simpa using hpk⟩)

/-- Updating the (unique) bucket of key `k` only permutes the flattened
contents up to the appended item. -/
theorem upd_flatten_perm (gs : List (List Char × List DNode)) (k : List Char)
    (it : DNode) (hn : (gs.map (·.1)).Nodup)
    (hany : gs.any (fun p => p.1 = k) = true) :
    List.Perm
      ((gs.map (fun p => if p.1 = k then (p.1, p.2 ++ [it]) else p)).map (·.2)).flatten
      ((gs.map (·.2)).flatten ++ [it]) := by
  induction gs with
  | nil => simp at hany
  | cons p rest ih =>
    obtain ⟨k0, l0⟩ := p
    rw [List.map_cons, List.nodup_cons] at hn
    by_cases hk0 : k0 = k
    · have hrest : rest.map (fun p => if p.1 = k then (p.1, p.2 ++ [it]) else p) =
          rest.map id := by
        apply List.map_congr_left
        intro q hq
        have hqk : q.1 ≠ k := by
          intro hqk
          exact hn.1 (hk0 ▸ hqk ▸ List.mem_map.mpr ⟨q, hq, rfl⟩)
        simp [hqk]
      simp only [List.map_cons, if_pos (by simpa using hk0), hrest, List.map_id,
        List.flatten_cons, List.append_assoc]
      exact List.Perm.append_left l0 List.perm_append_comm
    · have hany2 : rest.any (fun p => p.1 = k) = true := by
        rcases List.any_eq_true.mp hany with ⟨q, hq, hqk⟩
        rcases List.mem_cons.mp hq with hq1 | hq2
        · exact absurd (by simpa [hq1] using hqk) hk0
        · exact List.any_eq_true.mpr ⟨q, hq2, hqk⟩
      simp only [List.map_cons, if_neg (by simpa using hk0), List.flatten_cons,
        List.append_assoc]
      exact List.Perm.append_left l0 (ih hn.2 hany2)

/-- One bucket step appends the new item, up to permutation. -/
theorem addToGroup_flatten_perm (gs : List (List Char × List DNode))
    (k : List Char) (it : DNode) (hn : (gs.map (·.1)).Nodup) :
    List.Perm ((addToGroup gs k it).map (·.2)).flatten
      ((gs.map (·.2)).flatten ++ [it]) := by
  by_cases hany : gs.any (fun p => p.1 = k)
  · rw [addToGroup, if_pos hany]
    exact upd_flatten_perm gs k it hn hany
  · rw [addToGroup, if_neg hany]
    simp

/-- In an association list with distinct keys, the bucket of a key is
unique. -/
theorem bucket_unique {gs : List (List Char × List DNode)}
    (hn : (gs.map (·.1)).Nodup) {k : List Char} {l : List DNode}
    (h : (k, l) ∈ gs) : ∀ l2, (k, l2) ∈ gs → l2 = l := by
  induction gs with
  | nil => simp at h
  | cons p rest ih =>
    obtain ⟨k0, l0⟩ := p
    rw [List.map_cons, List.nodup_cons] at hn
    intro l2 h2
    rcases List.mem_cons.mp h with hh | hh
    · rw [Prod.mk.injEq] at hh
      obtain ⟨rfl, rfl⟩ := hh.imp Eq.symm Eq.symm
      rcases List.mem_cons.mp h2 with hh2 | hh2
      · rw [Prod.mk.injEq] at hh2
        exact hh2.2
      · exact absurd (List.mem_map.mpr ⟨(k0, l2), hh2, rfl⟩) hn.1
    · rcases List.mem_cons.mp h2 with hh2 | hh2
      · rw [Prod.mk.injEq] at hh2
        obtain ⟨rfl, rfl⟩ := hh2.imp Eq.symm Eq.symm
        exact absurd (List.mem_map.mpr ⟨(k0, l), hh, rfl⟩) hn.1
      · exact ih hn.2 hh l2 hh2

/-- The bucket fold of `extractGroups`, characterized: keys in first-seen
order and pairwise distinct, each bucket the order-preserving restriction
of the input, the flattened buckets a permutation of the input. -/
theorem bucketFold_spec (key : DNode → List Char) (items : List DNode) :
    ((items.foldl (fun gs it => addToGroup gs (key it) it) []).map (·.1) =
      firstSeenKeys (items.map key)) ∧
    (((items.foldl (fun gs it => addToGroup gs (key it) it) []).map (·.1)).Nodup) ∧
    (∀ k l, (k, l) ∈ items.foldl (fun gs it => addToGroup gs (key it) it) [] →
      l = items.filter (fun x => key x = k)) ∧
    List.Perm
      (((items.foldl (fun gs it => addToGroup gs (key it) it) []).map (·.2)).flatten)
      items := by
  induction items using List.reverseRecOn with
  | nil => simp [firstSeenKeys]
  | append_singleton items' it ih =>
    obtain ⟨ihk, ihn, ihf, ihp⟩ := ih
    have hfold : (items' ++ [it]).foldl (fun gs x => addToGroup gs (key x) x) [] =
        addToGroup (items'.foldl (fun gs x => addToGroup gs (key x) x) []) (key it) it := by
      rw [List.foldl_append]
      rfl
    refine ⟨?_, ?_, ?_, ?_⟩
    · rw [hfold, addToGroup_keys, ihk, List.map_append, List.map_singleton,
        firstSeenKeys_append_one]
    · rw [hfold]
      exact addToGroup_nodup _ _ _ ihn
    · intro k l hmem
      rw [hfold] at hmem
      rcases addToGroup_mem hmem with ⟨rfl, hnotin, rfl⟩ | ⟨rfl, l0, hl0, rfl⟩ |
        ⟨hne, hmem2⟩
      · have hkeys : key it ∉ items'.map key := by
          rw [ihk, mem_firstSeenKeys] at hnotin
          exact hnotin
        have hfil : items'.filter (fun x => key x = key it) = [] := by
          rw [List.filter_eq_nil_iff]
          intro a ha
          simp only [decide_eq_true_eq]
          intro hkey
          exact hkeys (List.mem_map.mpr ⟨a, ha, hkey⟩)
        rw [List.filter_append, hfil]
        simp
      · rw [List.filter_append, ← ihf _ _ hl0]
        simp
      · rw [List.filter_append, ← ihf _ _ hmem2]
        have : (List.filter (fun x => decide (key x = k)) [it]) = [] := by
          simp [Ne.symm hne]
        rw [this, List.append_nil]
    · rw [hfold]
      exact (addToGroup_flatten_perm _ _ _ ihn).trans (ihp.append_right [it])

/-- C5: for every list of discovered items with no duplicate references,
`extractGroups` partitions the input — keys are in first-seen order and
pairwise distinct, each group's list is the order-preserving restriction
of the input to its key, the union of the groups is a permutation of the
input (no omissions, no duplicates), every item belongs to exactly one
group, and distinct groups are disjoint. -/
theorem c5_extractGroups_partition (customGroups : List (List Char))
    (items : List DNode) (hnd : items.Nodup) :
    ((extractGroups customGroups items).map (·.1) =
      firstSeenKeys (items.map (keyOf customGroups))) ∧
    ((extractGroups customGroups items).map (·.1)).Nodup ∧
    (∀ k l, (k, l) ∈ extractGroups customGroups items →
      l = items.filter (fun x => keyOf customGroups x = k)) ∧
    List.Perm (((extractGroups customGroups items).map (·.2)).flatten) items ∧
    (∀ it ∈ items, ∃! p, p ∈ extractGroups customGroups items ∧ it ∈ p.2) ∧
    (∀ k1 l1 k2 l2, (k1, l1) ∈ extractGroups customGroups items →
      (k2, l2) ∈ extractGroups customGroups items → k1 ≠ k2 →
      ∀ it, it ∈ l1 → it ∉ l2) := by
  obtain ⟨hk, hn, hf, hp⟩ := bucketFold_spec (keyOf customGroups) items
  have hext : extractGroups customGroups items =
      items.foldl (fun gs it => addToGroup gs (keyOf customGroups it) it) [] := rfl
  rw [hext]
  refine ⟨hk, hn, hf, hp, ?_, ?_⟩
  · intro it hit
    set gs := items.foldl (fun gs it => addToGroup gs (keyOf customGroups it) it) []
    have hkmem : keyOf customGroups it ∈ gs.map (·.1) := by
      rw [hk, mem_firstSeenKeys]
      exact List.mem_map.mpr ⟨it, hit, rfl⟩
    obtain ⟨p, hpmem, hpk⟩ := List.mem_map.mp hkmem
    obtain ⟨k0, l0⟩ := p
    have hk0 : k0 = keyOf customGroups it := hpk
    subst hk0
    have hl0 := hf _ _ hpmem
    refine ⟨(keyOf customGroups it, l0), ⟨hpmem, ?_⟩, ?_⟩
    · rw [hl0, List.mem_filter]
      exact ⟨hit, by simp⟩
    · rintro ⟨k1, l1⟩ ⟨hq, hitq⟩
      have hl1 := hf _ _ hq
      have hk1 : keyOf customGroups it = k1 := by
        rw [hl1, List.mem_filter] at hitq
        simpa using hitq.2
      subst hk1
      have : l1 = l0 := bucket_unique hn hpmem l1 hq
      rw [this]
  · intro k1 l1 k2 l2 h1 h2 hne it hit1 hit2
    have e1 := hf _ _ h1
    have e2 := hf _ _ h2
    rw [e1, List.mem_filter] at hit1
    rw [e2, List.mem_filter] at hit2
    exact hne ((by simpa using hit1.2 : keyOf customGroups it = k1).symm.trans
      (by simpa using hit2.2))

/-- C5 witness: the partition theorem instantiated at the scenario items
`web-ui`, `web-api`, `cli-tool`-style inputs (here `api-server`). -/
theorem c5_extractGroups_partition_witness :
    demoWebApiItems.Nodup ∧
    ((extractGroups [] demoWebApiItems).map (·.1) =
      firstSeenKeys (demoWebApiItems.map (keyOf []))) ∧
    ((extractGroups [] demoWebApiItems).map (·.1)).Nodup ∧
    (∀ k l, (k, l) ∈ extractGroups [] demoWebApiItems →
      l = demoWebApiItems.filter (fun x => keyOf [] x = k)) ∧
    List.Perm (((extractGroups [] demoWebApiItems).map (·.2)).flatten)
      demoWebApiItems ∧
    (∀ it ∈ demoWebApiItems, ∃! p, p ∈ extractGroups [] demoWebApiItems ∧ it ∈ p.2) ∧
    (∀ k1 l1 k2 l2, (k1, l1) ∈ extractGroups [] demoWebApiItems →
      (k2, l2) ∈ extractGroups [] demoWebApiItems → k1 ≠ k2 →
      ∀ it, it ∈ l1 → it ∉ l2) := by
  have hnd : demoWebApiItems.Nodup := by
    simp [demoWebApiItems, demoItem]
  obtain ⟨h1, h2, h3, h4, h5, h6⟩ := c5_extractGroups_partition [] demoWebApiItems hnd
  exact ⟨hnd, h1, h2, h3, h4, h5, h6⟩

/-! ## C3 — discovery acceptance versus display names -/

theorem nodesOf_eq (root : DNode) :
    nodesOf root = root :: (descendantsOf root).map (·.2) := by
  cases root
  rfl

/-- In a document with pairwise distinct identities, identity determines
the node. -/
theorem nid_inj {root : DNode} (hn : (idsOf root).Nodup) {x y : DNode}
    (hx : x ∈ nodesOf root) (hy : y ∈ nodesOf root)
    (hxy : x.nid = y.nid) : x = y :=
  List.inj_on_of_nodup_map hn hx hy hxy

theorem mem_qsa_mem_nodes {root : DNode} {sels : List Sel} {x : DNode}
    (h : x ∈ qsa root sels) : x ∈ nodesOf root := by
  rw [qsa] at h
  obtain ⟨p, hp, rfl⟩ := List.mem_map.mp h
  rw [nodesOf_eq]
  exact List.mem_cons_of_mem _ (List.mem_map.mpr ⟨p, (List.mem_filter.mp hp).1, rfl⟩)

theorem collectItem_mono {items : List DNode} {x : DNode} (hx : x ∈ items)
    (item : DNode) : x ∈ collectItem items item := by
  rw [collectItem]
  split
  · exact List.mem_append_left _ hx
  · exact hx

theorem foldl_collect_mono {l : List DNode} {items : List DNode} {x : DNode}
    (hx : x ∈ items) : x ∈ l.foldl collectItem items := by
  induction l generalizing items with
  | nil => exact hx
  | cons item l ih => exact ih (collectItem_mono hx item)

theorem foldl_collect_sound {l : List DNode} {items : List DNode} {x : DNode}
    (h : x ∈ l.foldl collectItem items) :
    x ∈ items ∨ (x ∈ l ∧ acceptItem x = true) := by
  induction l generalizing items with
  | nil => exact Or.inl h
  | cons item l ih =>
    rcases ih h with hacc | ⟨hl, hok⟩
    · rw [collectItem] at hacc
      split at hacc
      · rcases List.mem_append.mp hacc with hi | hi
        · exact Or.inl hi
        · rw [List.mem_singleton] at hi
          subst hi
          rename_i hcond
          exact Or.inr ⟨List.mem_cons_self _ _, (Bool.and_eq_true _ _ ▸ hcond).1⟩
      · exact Or.inl hacc
    · exact Or.inr ⟨List.mem_cons_of_mem _ hl, hok⟩

theorem foldl_collect_sub {l : List DNode} {items : List DNode} {y : DNode}
    (h : y ∈ l.foldl collectItem items) : y ∈ items ∨ y ∈ l := by
  rcases foldl_collect_sound h with h | ⟨h, _⟩
  · exact Or.inl h
  · exact Or.inr h

theorem foldl_collect_complete {root : DNode} (hn : (idsOf root).Nodup)
    {l : List DNode} {items : List DNode} {x : DNode}
    (hsub : ∀ y ∈ items, y ∈ nodesOf root) (hl : ∀ y ∈ l, y ∈ nodesOf root)
    (hx : x ∈ l) (hok : acceptItem x = true) :
    x ∈ l.foldl collectItem items := by
  induction l generalizing items with
  | nil => simp at hx
  | cons item l ih =>
    have hsub2 : ∀ y ∈ collectItem items item, y ∈ nodesOf root := by
      intro y hy
      rw [collectItem] at hy
      split at hy
      · rcases List.mem_append.mp hy with hy | hy
        · exact hsub y hy
        · rw [List.mem_singleton] at hy
          subst hy
          exact hl _ (List.mem_cons_self _ _)
      · exact hsub y hy
    rcases List.mem_cons.mp hx with heq | hx2
    · rw [List.foldl_cons, heq]
      rw [heq] at hok
      by_cases hinc : includesRef items item
      · obtain ⟨y, hy, hyx⟩ := List.any_eq_true.mp hinc
        have hy2 : y = item := nid_inj hn (hsub y hy)
          (hl item (List.mem_cons_self _ _)) (by simpa using hyx)
        exact foldl_collect_mono (collectItem_mono (hy2 ▸ hy) item)
      · apply foldl_collect_mono
        rw [collectItem, if_pos (by simp [hok, hinc])]
        exact List.mem_append_right _ (List.mem_singleton.mpr rfl)
    · exact ih hsub2 (fun y hy => hl y (List.mem_cons_of_mem _ hy)) hx2

theorem findItems_outer_sound {sels : List Sel} {container : DNode}
    {items : List DNode} {x : DNode}
    (h : x ∈ sels.foldl (collectFromSel container) items) :
    x ∈ items ∨ ((∃ sel ∈ sels, x ∈ qsa container [sel]) ∧ acceptItem x = true) := by
  induction sels generalizing items with
  | nil => exact Or.inl h
  | cons sel sels ih =>
    rcases ih h with hacc | ⟨⟨s, hs, hq⟩, hok⟩
    · rcases foldl_collect_sound hacc with hi | ⟨hq, hok⟩
      · exact Or.inl hi
      · exact Or.inr ⟨⟨sel, List.mem_cons_self _ _, hq⟩, hok⟩
    · exact Or.inr ⟨⟨s, List.mem_cons_of_mem _ hs, hq⟩, hok⟩

theorem findItems_outer_mono {sels : List Sel} {container : DNode}
    {items : List DNode} {x : DNode} (hx : x ∈ items) :
    x ∈ sels.foldl (collectFromSel container) items := by
  induction sels generalizing items with
  | nil => exact hx
  | cons sel sels ih => exact ih (foldl_collect_mono hx)

theorem findItems_outer_complete {container : DNode}
    (hn : (idsOf container).Nodup) {sels : List Sel} {items : List DNode}
    {x : DNode} (hsub : ∀ y ∈ items, y ∈ nodesOf container)
    (hx : ∃ sel ∈ sels, x ∈ qsa container [sel]) (hok : acceptItem x = true) :
    x ∈ sels.foldl (collectFromSel container) items := by
  induction sels generalizing items with
  | nil => simp at hx
  | cons sel sels ih =>
    have hsub2 : ∀ y ∈ collectFromSel container items sel, y ∈ nodesOf container := by
      intro y hy
      rcases foldl_collect_sub hy with hy | hy
      · exact hsub y hy
      · exact mem_qsa_mem_nodes hy
    obtain ⟨s, hs, hq⟩ := hx
    rcases List.mem_cons.mp hs with heq | hs2
    · rw [List.foldl_cons]
      apply findItems_outer_mono
      exact foldl_collect_complete hn hsub (fun y hy => mem_qsa_mem_nodes hy)
        (heq ▸ hq) hok
    · exact ih hsub2 ⟨s, hs2, hq⟩

/-- C3 counterexample: `blankNameItem` (an `[itemprop="owns"]` entry
whose only name-bearing descendant `h3 > a` has empty text) is accepted
by `findRepositoryItems`, yet `getRepositoryName` yields the empty
string — acceptance does not guarantee a discoverable (non-empty)
display name. -/
theorem c3_accepted_with_empty_name :
    findRepositoryItems blankNameContainer = [blankNameItem] ∧
    getRepositoryName blankNameItem = "" := ⟨rfl, rfl⟩

/-- C3 (amended): an element is accepted as an item if and only if it is
matched by one of the item selectors and has a descendant matching one of
the first six name selectors — the same list `getRepositoryName` tries,
without its seventh entry `a[href*="/"][title]` — where only the
existence of that descendant is checked, not that it carries any text. -/
theorem c3_findItems_membership (container : DNode) (x : DNode)
    (hn : (idsOf container).Nodup) :
    x ∈ findRepositoryItems container ↔
      ((∃ sel ∈ itemSelectors, x ∈ qsa container [sel]) ∧
        (qs x nameSelsSix).isSome = true) := by
  constructor
  · intro h
    rcases findItems_outer_sound h with h | h
    · simp at h
    · exact h
  · rintro ⟨hsel, hok⟩
    exact findItems_outer_complete hn (by simp) hsel hok

/-- C3 witness: the membership characterization evaluated on the
blank-name document. -/
theorem c3_findItems_membership_witness :
    (idsOf blankNameContainer).Nodup ∧
    (blankNameItem ∈ findRepositoryItems blankNameContainer ↔
      ((∃ sel ∈ itemSelectors, blankNameItem ∈ qsa blankNameContainer [sel]) ∧
        (qs blankNameItem nameSelsSix).isSome = true)) :=
  ⟨by decide, c3_findItems_membership blankNameContainer blankNameItem (by decide)⟩

/-! ## C9 — original nodes move into real holders, the `all` holder
gets clones -/

/-- The mapped second components of a walk do not depend on the ancestor
argument. -/
theorem walk_snd_anc :
    (∀ n : DNode, ∀ anc anc' : List DNode,
      (DNode.walk anc n).map (·.2) = (DNode.walk anc' n).map (·.2)) ∧
    (∀ f : DForest, ∀ anc anc' : List DNode,
      (DForest.walk anc f).map (·.2) = (DForest.walk anc' f).map (·.2)) := by
  refine dnodeMutualInd ?_ ?_ ?_
  · intro nid t c a d x ch ih anc anc'
    simp only [DNode.walk, List.map_cons, List.cons.injEq]
    exact ⟨trivial, ih _ _⟩
  · intro anc anc'
    rfl
  · intro n f ihn ihf anc anc'
    simp only [DForest.walk, List.map_append]
    rw [ihn anc anc', ihf anc anc']

theorem shift_nid (off : Nat) (n : DNode) :
    (DNode.shiftIds off n).nid = n.nid + off := by
  cases n
  rfl

/-- Clones are structural copies: identity erasure commutes with the
identity shift. -/
theorem strip_shift (off : Nat) :
    (∀ n : DNode, (DNode.shiftIds off n).strip = n.strip) ∧
    (∀ f : DForest, (DForest.shiftIds off f).strip = f.strip) := by
  refine dnodeMutualInd ?_ ?_ ?_
  · intro nid t c a d x ch ih
    simp only [DNode.shiftIds, DNode.strip, ih]
  · rfl
  · intro n f ihn ihf
    simp only [DForest.shiftIds, DForest.strip, ihn, ihf]

/-- The nodes of a shifted tree are the shifted nodes. -/
theorem nodes_shift (off : Nat) :
    (∀ n : DNode, ∀ anc anc' : List DNode,
      (DNode.walk anc (DNode.shiftIds off n)).map (·.2) =
        ((DNode.walk anc' n).map (·.2)).map (DNode.shiftIds off)) ∧
    (∀ f : DForest, ∀ anc anc' : List DNode,
      (DForest.walk anc (DForest.shiftIds off f)).map (·.2) =
        ((DForest.walk anc' f).map (·.2)).map (DNode.shiftIds off)) := by
  refine dnodeMutualInd ?_ ?_ ?_
  · intro nid t c a d x ch ih anc anc'
    simp only [DNode.shiftIds, DNode.walk, List.map_cons, List.cons.injEq]
    exact ⟨trivial, ih _ _⟩
  · intro anc anc'
    rfl
  · intro n f ihn ihf anc anc'
    simp only [DForest.shiftIds, DForest.walk, List.map_append]
    rw [ihn anc anc', ihf anc anc']

theorem idsOf_shift (off : Nat) (n : DNode) :
    idsOf (DNode.shiftIds off n) = (idsOf n).map (· + off) := by
  rw [idsOf, nodesOf, (nodes_shift off).1 n [] [], idsOf, nodesOf]
  simp only [List.map_map]
  apply List.map_congr_left
  intro m _
  simp [Function.comp, shift_nid]

/-- Ids of a clone all clear the offset. -/
theorem idsOf_shift_ge (off : Nat) (n : DNode) {i : Nat}
    (h : i ∈ idsOf (DNode.shiftIds off n)) : off ≤ i := by
  rw [idsOf_shift] at h
  obtain ⟨j, _, rfl⟩ := List.mem_map.mp h
  omega

theorem mem_addClass (c : String) (l : List String) : c ∈ addClass c l := by
  rw [addClass]
  split
  · rename_i h
    simpa using h
  · exact List.mem_append_right _ (List.mem_singleton.mpr rfl)

/-- C9: in the repos section built by `createRepoContainers`, each real
group's holder receives exactly the group's original item nodes (the same
node objects, identities included, in order), while the synthetic `all`
holder, listed first, receives structural copies of every item across
every group and never an original node (its subtree identities are
disjoint from every original item's). -/
theorem c9_holders_move_originals_all_clones
    (groups : List (List Char × List DNode)) (container : DNode) (b off : Nat)
    (hoff : ∀ p ∈ groups, ∀ it ∈ p.2, ∀ i ∈ idsOf it, i < off) :
    ∃ allC groupCs,
      (createRepoContainers groups container b off).children.toList =
        allC :: groupCs ∧
      groupCs.length = groups.length ∧
      (∀ i (hi : i < groups.length) (hig : i < groupCs.length),
        (groupCs.get ⟨i, hig⟩).attr "data-group-id" =
          some ⟨(groups.get ⟨i, hi⟩).1⟩ ∧
        (groupCs.get ⟨i, hig⟩).children.toList = (groups.get ⟨i, hi⟩).2 ∧
        (groupCs.get ⟨i, hig⟩).display = "none" ∧
        "gitlab-repo-container" ∈ (groupCs.get ⟨i, hig⟩).classes) ∧
      allC.attr "data-group-id" = some "all" ∧
      allC.display = "none" ∧
      "gitlab-repo-container" ∈ allC.classes ∧
      allC.children.toList.map DNode.strip =
        ((groups.map (·.2)).flatten).map DNode.strip ∧
      (∀ c ∈ allC.children.toList, ∀ p ∈ groups, ∀ it ∈ p.2,
        ∀ i ∈ idsOf c, i ∉ idsOf it) := by
  refine ⟨.elem (b + 1) container.tag
      (addClass "gitlab-repo-container" container.classes)
      [("data-group-id", "all")] "none" ""
      (DForest.ofList
        (((groups.map (·.2)).flatten).map (DNode.shiftIds off))),
    groups.enum.map (fun gi =>
      DNode.elem (b + 2 + gi.1) container.tag
        (addClass "gitlab-repo-container" container.classes)
        [("data-group-id", ⟨gi.2.1⟩)] "none" ""
        (DForest.ofList gi.2.2)),
    ?_, ?_, ?_, rfl, rfl, mem_addClass _ _, ?_, ?_⟩
  · exact DForest.toList_ofList _
  · simp
  · intro i hi hig
    have hget : (groups.enum.map (fun gi =>
        DNode.elem (b + 2 + gi.1) container.tag
          (addClass "gitlab-repo-container" container.classes)
          [("data-group-id", ⟨gi.2.1⟩)] "none" ""
          (DForest.ofList gi.2.2))).get ⟨i, hig⟩ =
        DNode.elem (b + 2 + i) container.tag
          (addClass "gitlab-repo-container" container.classes)
          [("data-group-id", ⟨(groups.get ⟨i, hi⟩).1⟩)] "none" ""
          (DForest.ofList (groups.get ⟨i, hi⟩).2) := by
      rw [List.get_eq_getElem, List.getElem_map, List.getElem_enum]
      rfl
    rw [hget]
    exact ⟨rfl, DForest.toList_ofList _, rfl, mem_addClass _ _⟩
  · simp only [DNode.children]
    rw [DForest.toList_ofList, List.map_map]
    apply List.map_congr_left
    intro it _
    exact (strip_shift off).1 it
  · intro c hc p hp it hit i hic hiit
    simp only [DNode.children] at hc
    rw [DForest.toList_ofList] at hc
    obtain ⟨it0, _, rfl⟩ := List.mem_map.mp hc
    have h1 : off ≤ i := idsOf_shift_ge off it0 hic
    have h2 : i < off := hoff p hp it hit i hiit
    omega

/-- C9 witness: the theorem evaluated on two one-item groups with clone
offset 100. -/
theorem c9_holders_witness :
    (∀ p ∈ [(("Web".data : List Char), [demoItem 10 "web-ui"]),
        (("Api".data : List Char), [demoItem 30 "api-server"])],
      ∀ it ∈ p.2, ∀ i ∈ idsOf it, i < 100) ∧
    (∃ allC groupCs,
      (createRepoContainers
          [(("Web".data : List Char), [demoItem 10 "web-ui"]),
            (("Api".data : List Char), [demoItem 30 "api-server"])]
          demoContainer 50 100).children.toList = allC :: groupCs ∧
      groupCs.length = 2 ∧
      (∀ i (hi : i < ([(("Web".data : List Char), [demoItem 10 "web-ui"]),
          (("Api".data : List Char), [demoItem 30 "api-server"])]).length)
          (hig : i < groupCs.length),
        (groupCs.get ⟨i, hig⟩).attr "data-group-id" =
          some ⟨(([(("Web".data : List Char), [demoItem 10 "web-ui"]),
            (("Api".data : List Char), [demoItem 30 "api-server"])]).get
              ⟨i, hi⟩).1⟩ ∧
        (groupCs.get ⟨i, hig⟩).children.toList =
          (([(("Web".data : List Char), [demoItem 10 "web-ui"]),
            (("Api".data : List Char), [demoItem 30 "api-server"])]).get
              ⟨i, hi⟩).2 ∧
        (groupCs.get ⟨i, hig⟩).display = "none" ∧
        "gitlab-repo-container" ∈ (groupCs.get ⟨i, hig⟩).classes) ∧
      allC.attr "data-group-id" = some "all" ∧
      allC.display = "none" ∧
      "gitlab-repo-container" ∈ allC.classes ∧
      allC.children.toList.map DNode.strip =
        ((([(("Web".data : List Char), [demoItem 10 "web-ui"]),
          (("Api".data : List Char), [demoItem 30 "api-server"])]).map
            (·.2)).flatten).map DNode.strip ∧
      (∀ c ∈ allC.children.toList,
        ∀ p ∈ [(("Web".data : List Char), [demoItem 10 "web-ui"]),
          (("Api".data : List Char), [demoItem 30 "api-server"])],
        ∀ it ∈ p.2, ∀ i ∈ idsOf c, i ∉ idsOf it)) := by
  have hoff : ∀ p ∈ [(("Web".data : List Char), [demoItem 10 "web-ui"]),
      (("Api".data : List Char), [demoItem 30 "api-server"])],
      ∀ it ∈ p.2, ∀ i ∈ idsOf it, i < 100 := by decide
  have h := c9_holders_move_originals_all_clones
    [(("Web".data : List Char), [demoItem 10 "web-ui"]),
      (("Api".data : List Char), [demoItem 30 "api-server"])]
    demoContainer 50 100 hoff
  obtain ⟨allC, groupCs, h1, h2, h3, h4, h5, h6, h7, h8⟩ := h
  exact ⟨hoff, allC, groupCs, h1, by rw [h2]; rfl, h3, h4, h5, h6, h7, h8⟩

/-! ## C4 — rollback on failure during grouping -/

theorem tag_setChildren (n : DNode) (f : DForest) :
    (n.setChildren f).tag = n.tag := by
  cases n
  rfl

theorem tag_setClasses (n : DNode) (c : List String) :
    (n.setClasses c).tag = n.tag := by
  cases n
  rfl

theorem classes_setClasses (n : DNode) (c : List String) :
    (n.setClasses c).classes = c := by
  cases n
  rfl

theorem children_setChildren (n : DNode) (f : DForest) :
    (n.setChildren f).children = f := by
  cases n
  rfl

theorem children_setClasses (n : DNode) (c : List String) :
    (n.setClasses c).children = n.children := by
  cases n
  rfl

/-- However far the `try` block got, the partially mutated container
keeps the original tag. -/
theorem buildStep_tag (container : DNode) (groups : List (List Char × List DNode))
    (b off k : Nat) : (buildStep container groups b off k).tag = container.tag := by
  rw [buildStep]
  split
  · rfl
  · split
    · rw [tag_setChildren]
    · split
      · rw [tag_setClasses, tag_setChildren]
      · rw [tag_setChildren, tag_setClasses, tag_setChildren]

/-- C4: when an exception interrupts the rebuild of a grouped container —
at any point of the `try` block — the catch path hands `displayAllRepos`
a container whose class list equals the pre-processing snapshot and whose
content is node-for-node structurally equal to the snapshot (fresh node
identities, as `innerHTML` re-parsing allocates new nodes), and the
ungrouped display path is then applied to that container. -/
theorem c4_rollback_restores_snapshot (customGroups : List (List Char))
    (container : DNode) (items : List DNode) (b off k : Nat)
    (hg : 1 < (extractGroups customGroups items).length) :
    ∃ restored,
      createGroupCards customGroups container items b off (some k) =
        displayAllRepos restored items ∧
      restored.tag = container.tag ∧
      restored.classes = container.classes ∧
      restored.children.strip = container.children.strip := by
  refine ⟨((buildStep container (extractGroups customGroups items) b off
      k).setChildren (DForest.shiftIds off container.children)).setClasses
      container.classes, ?_, ?_, ?_, ?_⟩
  · simp only [createGroupCards]
    rw [if_neg (by omega : ¬(extractGroups customGroups items).length ≤ 1)]
  · rw [tag_setClasses, tag_setChildren, buildStep_tag]
  · rw [classes_setClasses]
  · rw [children_setClasses, children_setChildren, (strip_shift off).2]

/-- C4 witness: the rollback theorem evaluated on the scenario container
with a fault after the class mutation (`k = 2`). -/
theorem c4_rollback_witness :
    1 < (extractGroups [] demoWebApiItems).length ∧
    ∃ restored,
      createGroupCards [] demoContainer demoWebApiItems 100 1000 (some 2) =
        displayAllRepos restored demoWebApiItems ∧
      restored.tag = demoContainer.tag ∧
      restored.classes = demoContainer.classes ∧
      restored.children.strip = demoContainer.children.strip :=
  ⟨by decide,
    c4_rollback_restores_snapshot [] demoContainer demoWebApiItems 100 1000 2
      (by decide)⟩

/-! ## C10 — `showGroupRepos` on missing holders and missing sections -/

theorem nid_updIds (ids : List Nat) (fd : String → String)
    (fc : List String → List String) (n : DNode) :
    (DNode.updIds ids fd fc n).nid = n.nid := by
  cases n with
  | elem i t c a d x ch =>
    rw [DNode.updIds]
    split <;> rfl

theorem tag_updIds (ids : List Nat) (fd : String → String)
    (fc : List String → List String) (n : DNode) :
    (DNode.updIds ids fd fc n).tag = n.tag := by
  cases n with
  | elem i t c a d x ch =>
    rw [DNode.updIds]
    split <;> rfl

theorem attrs_updIds (ids : List Nat) (fd : String → String)
    (fc : List String → List String) (n : DNode) :
    (DNode.updIds ids fd fc n).attrs = n.attrs := by
  cases n with
  | elem i t c a d x ch =>
    rw [DNode.updIds]
    split <;> rfl

theorem children_updIds (ids : List Nat) (fd : String → String)
    (fc : List String → List String) (n : DNode) :
    (DNode.updIds ids fd fc n).children = DForest.updIds ids fd fc n.children := by
  cases n with
  | elem i t c a d x ch =>
    rw [DNode.updIds]
    split <;> rfl

theorem classes_updIds (ids : List Nat) (fd : String → String)
    (fc : List String → List String) (n : DNode) :
    (DNode.updIds ids fd fc n).classes =
      if n.nid ∈ ids then fc n.classes else n.classes := by
  cases n with
  | elem i t c a d x ch =>
    rw [DNode.updIds]
    split <;> simp_all [DNode.nid, DNode.classes]

theorem display_updIds (ids : List Nat) (fd : String → String)
    (fc : List String → List String) (n : DNode) :
    (DNode.updIds ids fd fc n).display =
      if n.nid ∈ ids then fd n.display else n.display := by
  cases n with
  | elem i t c a d x ch =>
    rw [DNode.updIds]
    split <;> simp_all [DNode.nid, DNode.display]

theorem walk_elem (anc : List DNode) (i : Nat) (t : String) (c : List String)
    (a : List (String × String)) (d x : String) (ch : DForest) :
    DNode.walk anc (.elem i t c a d x ch) =
      (anc, DNode.elem i t c a d x ch) ::
        DForest.walk (anc ++ [DNode.elem i t c a d x ch]) ch := rfl

/-- The walk of an identity-directed update is the pointwise update of
the walk: the rewrite is compositional because membership of `nid` in
the id set does not depend on the position in the tree. -/
theorem walk_updIds (ids : List Nat) (fd : String → String)
    (fc : List String → List String) :
    (∀ n : DNode, ∀ anc : List DNode,
      DNode.walk (anc.map (DNode.updIds ids fd fc)) (DNode.updIds ids fd fc n) =
        (DNode.walk anc n).map
          (fun p => (p.1.map (DNode.updIds ids fd fc),
            DNode.updIds ids fd fc p.2))) ∧
    (∀ f : DForest, ∀ anc : List DNode,
      DForest.walk (anc.map (DNode.updIds ids fd fc)) (DForest.updIds ids fd fc f) =
        (DForest.walk anc f).map
          (fun p => (p.1.map (DNode.updIds ids fd fc),
            DNode.updIds ids fd fc p.2))) := by
  refine dnodeMutualInd ?_ ?_ ?_
  · intro i t c a d x ch ih anc
    have hU : DNode.updIds ids fd fc (DNode.elem i t c a d x ch) =
        DNode.elem i t (if i ∈ ids then fc c else c) a
          (if i ∈ ids then fd d else d) x (DForest.updIds ids fd fc ch) := by
      by_cases hmem : i ∈ ids <;> simp [DNode.updIds, hmem]
    rw [hU, walk_elem, walk_elem, List.map_cons]
    refine congrArg₂ List.cons ?_ ?_
    · rw [Prod.mk.injEq]
      exact ⟨rfl, hU.symm⟩
    · have hh := ih (anc ++ [DNode.elem i t c a d x ch])
      rw [List.map_append, List.map_singleton, hU] at hh
      exact hh
  · intro anc
    rfl
  · intro n f ihn ihf anc
    rw [DForest.updIds, DForest.walk, DForest.walk, List.map_append, ihn, ihf]

theorem nodesOf_updIds (ids : List Nat) (fd : String → String)
    (fc : List String → List String) (root : DNode) :
    nodesOf (DNode.updIds ids fd fc root) =
      (nodesOf root).map (DNode.updIds ids fd fc) := by
  rw [nodesOf, nodesOf]
  have h := (walk_updIds ids fd fc).1 root []
  rw [List.map_nil] at h
  rw [h, List.map_map, List.map_map]
  rfl

theorem descendantsOf_updIds (ids : List Nat) (fd : String → String)
    (fc : List String → List String) (root : DNode) :
    descendantsOf (DNode.updIds ids fd fc root) =
      (descendantsOf root).map
        (fun p => (p.1.map (DNode.updIds ids fd fc),
          DNode.updIds ids fd fc p.2)) := by
  rw [descendantsOf, descendantsOf, children_updIds]
  have h := (walk_updIds ids fd fc).2 root.children [root]
  rw [List.map_singleton] at h
  exact h

theorem findById_updIds (ids : List Nat) (fd : String → String)
    (fc : List String → List String) (root : DNode) (i : Nat) :
    findById (DNode.updIds ids fd fc root) i =
      (findById root i).map (DNode.updIds ids fd fc) := by
  rw [findById, findById, nodesOf_updIds, List.find?_map]
  have hp : ((fun n : DNode => decide (n.nid = i)) ∘ DNode.updIds ids fd fc) =
      (fun n : DNode => decide (n.nid = i)) := by
    funext n
    simp [Function.comp, nid_updIds]
  rw [hp]

/-- Updates that keep every class other than `a` intact do not change
simple-selector matching, for selectors that avoid class `a`. -/
theorem smatches_updIds {a : String} {fc : List String → List String}
    (hfc : ∀ l c, c ≠ a → (c ∈ fc l ↔ c ∈ l)) (ids : List Nat)
    (fd : String → String) (s : SSel) (hs : s.avoidsCls a = true)
    (n : DNode) :
    s.smatches (DNode.updIds ids fd fc n) = s.smatches n := by
  induction s with
  | tagS t => simp [SSel.smatches, tag_updIds]
  | clsS c =>
    rw [SSel.avoidsCls] at hs
    have hca : c ≠ a := by simpa using hs
    simp only [SSel.smatches, classes_updIds]
    split
    · have hmm := hfc n.classes c hca
      by_cases hc : c ∈ n.classes
      · have e1 : (fc n.classes).contains c = true := by
          simpa using hmm.mpr hc
        have e2 : n.classes.contains c = true := by simpa using hc
        rw [e1, e2]
      · have e1 : (fc n.classes).contains c = false := by
          simp only [List.contains_eq_any_beq]
          simp only [Bool.eq_false_iff, ne_eq, List.any_eq_true, not_exists,
            not_and]
          intro y hy hbeq
          rw [beq_iff_eq] at hbeq
          subst hbeq
          exact hc (hmm.mp hy)
        have e2 : n.classes.contains c = false := by
          simp only [List.contains_eq_any_beq]
          simp only [Bool.eq_false_iff, ne_eq, List.any_eq_true, not_exists,
            not_and]
          intro y hy hbeq
          rw [beq_iff_eq] at hbeq
          subst hbeq
          exact hc hy
        rw [e1, e2]
    · rfl
  | attrEqS k v => simp [SSel.smatches, DNode.attr, attrs_updIds]
  | attrSubS k v => simp [SSel.smatches, DNode.attr, attrs_updIds]
  | attrPresS k => simp [SSel.smatches, DNode.attr, attrs_updIds]
  | andS s1 s2 ih1 ih2 =>
    rw [SSel.avoidsCls, Bool.and_eq_true] at hs
    simp [SSel.smatches, ih1 hs.1, ih2 hs.2]

theorem matchesAt_updIds {a : String} {fc : List String → List String}
    (hfc : ∀ l c, c ≠ a → (c ∈ fc l ↔ c ∈ l)) (ids : List Nat)
    (fd : String → String) (s : Sel) (hs : s.avoidsCls a = true)
    (anc : List DNode) (n : DNode) :
    s.matchesAt (anc.map (DNode.updIds ids fd fc))
        (DNode.updIds ids fd fc n) = s.matchesAt anc n := by
  cases s with
  | simple s0 =>
    rw [Sel.avoidsCls] at hs
    simp [Sel.matchesAt, smatches_updIds hfc ids fd s0 hs]
  | descend s1 s2 =>
    rw [Sel.avoidsCls, Bool.and_eq_true] at hs
    simp only [Sel.matchesAt, smatches_updIds hfc ids fd s2 hs.2, List.any_map]
    have hany : ((fun m => s1.smatches m) ∘ DNode.updIds ids fd fc) =
        (fun m => s1.smatches m) := by
      funext m
      simp [Function.comp, smatches_updIds hfc ids fd s1 hs.1]
    rw [hany]

theorem anyMatches_updIds {a : String} {fc : List String → List String}
    (hfc : ∀ l c, c ≠ a → (c ∈ fc l ↔ c ∈ l)) (ids : List Nat)
    (fd : String → String) (sels : List Sel)
    (hsels : ∀ s ∈ sels, s.avoidsCls a = true) (anc : List DNode) (n : DNode) :
    (sels.any fun s => s.matchesAt (anc.map (DNode.updIds ids fd fc))
        (DNode.updIds ids fd fc n)) =
      sels.any fun s => s.matchesAt anc n := by
  induction sels with
  | nil => rfl
  | cons s ss ih =>
    rw [List.any_cons, List.any_cons,
      matchesAt_updIds hfc ids fd s (hsels s (List.mem_cons_self _ _)) anc n,
      ih (fun s2 hs2 => hsels s2 (List.mem_cons_of_mem _ hs2))]

theorem qsa_updIds {a : String} {fc : List String → List String}
    (hfc : ∀ l c, c ≠ a → (c ∈ fc l ↔ c ∈ l)) (ids : List Nat)
    (fd : String → String) (root : DNode) (sels : List Sel)
    (hsels : ∀ s ∈ sels, s.avoidsCls a = true) :
    qsa (DNode.updIds ids fd fc root) sels =
      (qsa root sels).map (DNode.updIds ids fd fc) := by
  rw [qsa, qsa, descendantsOf_updIds, List.filter_map, List.map_map, List.map_map]
  have hfil : List.filter
      ((fun q => sels.any fun s => s.matchesAt q.1 q.2) ∘
        (fun p => (p.1.map (DNode.updIds ids fd fc), DNode.updIds ids fd fc p.2)))
      (descendantsOf root) =
    List.filter (fun q => sels.any fun s => s.matchesAt q.1 q.2)
      (descendantsOf root) := by
    apply List.filter_congr
    intro q _
    exact anyMatches_updIds hfc ids fd sels hsels q.1 q.2
  rw [hfil]
  rfl

theorem qs_updIds {a : String} {fc : List String → List String}
    (hfc : ∀ l c, c ≠ a → (c ∈ fc l ↔ c ∈ l)) (ids : List Nat)
    (fd : String → String) (root : DNode) (sels : List Sel)
    (hsels : ∀ s ∈ sels, s.avoidsCls a = true) :
    qs (DNode.updIds ids fd fc root) sels =
      (qs root sels).map (DNode.updIds ids fd fc) := by
  rw [qs, qs, qsa_updIds hfc ids fd root sels hsels]
  cases qsa root sels <;> rfl

theorem classes_updIds_id (ids : List Nat) (fd : String → String) (n : DNode) :
    (DNode.updIds ids fd id n).classes = n.classes := by
  rw [classes_updIds]
  split <;> rfl

theorem display_updIds_id (ids : List Nat)
    (fc : List String → List String) (n : DNode) :
    (DNode.updIds ids id fc n).display = n.display := by
  rw [display_updIds]
  split <;> rfl

/-- A held reference is found again by its identity. -/
theorem findById_self_of_mem {root : DNode} (hn : (idsOf root).Nodup)
    {n : DNode} (h : n ∈ nodesOf root) : findById root n.nid = some n := by
  have hsome : (findById root n.nid).isSome := by
    rw [findById, List.find?_isSome]
    exact ⟨n, h, by simp⟩
  obtain ⟨y, hy⟩ := Option.isSome_iff_exists.mp hsome
  have hymem : y ∈ nodesOf root := List.mem_of_find?_eq_some hy
  have hynid : y.nid = n.nid := by simpa using List.find?_some hy
  rw [hy, nid_inj hn hymem h hynid]

theorem nodesOf_elem (i : Nat) (t : String) (c : List String)
    (a : List (String × String)) (d x : String) (ch : DForest) :
    nodesOf (.elem i t c a d x ch) =
      DNode.elem i t c a d x ch :: nodesOfF ch := by
  rw [nodesOf, walk_elem, List.map_cons, nodesOfF,
    walk_snd_anc.2 ch ([] ++ [DNode.elem i t c a d x ch]) []]

theorem nodesOfF_cons (n : DNode) (f : DForest) :
    nodesOfF (.cons n f) = nodesOf n ++ nodesOfF f := by
  rw [nodesOfF, DForest.walk, List.map_append, nodesOf, nodesOfF]

/-- Membership among nodes is transitive through subtrees. -/
theorem nodesOf_trans :
    (∀ root : DNode, ∀ r ∈ nodesOf root, ∀ m ∈ nodesOf r, m ∈ nodesOf root) ∧
    (∀ f : DForest, ∀ r ∈ nodesOfF f, ∀ m ∈ nodesOf r, m ∈ nodesOfF f) := by
  refine dnodeMutualInd ?_ ?_ ?_
  · intro i t c a d x ch ih r hr m hm
    rw [nodesOf_elem] at hr ⊢
    rcases List.mem_cons.mp hr with rfl | hr2
    · rw [nodesOf_elem] at hm
      exact hm
    · exact List.mem_cons_of_mem _ (ih r hr2 m hm)
  · intro r hr
    rw [nodesOfF] at hr
    simp [DForest.walk] at hr
  · intro n f ihn ihf r hr m hm
    rw [nodesOfF_cons] at hr ⊢
    rcases List.mem_append.mp hr with hr2 | hr2
    · exact List.mem_append_left _ (ihn r hr2 m hm)
    · exact List.mem_append_right _ (ihf r hr2 m hm)

/-- Acceptable-membership of a query hit within the whole tree. -/
theorem mem_qsa_trans {root r : DNode} {sels : List Sel} {x : DNode}
    (hr : r ∈ nodesOf root) (h : x ∈ qsa r sels) : x ∈ nodesOf root :=
  nodesOf_trans.1 root r hr x (mem_qsa_mem_nodes h)

theorem mem_of_qs_eq_some {root : DNode} {sels : List Sel} {x : DNode}
    (h : qs root sels = some x) : x ∈ qsa root sels := by
  rw [qs] at h
  cases hq : qsa root sels with
  | nil => rw [hq] at h; simp at h
  | cons y l =>
    rw [hq] at h
    simp only [List.head?_cons, Option.some.injEq] at h
    rw [← h]
    exact List.mem_cons_self _ _

/-- A hit of the card-with-id query carries that group id. -/
theorem attr_of_mem_cardWithId {root : DNode} {gid : String} {x : DNode}
    (h : x ∈ qsa root (cardWithId gid)) :
    x.attr "data-group-id" = some gid ∧ "gitlab-group-card" ∈ x.classes := by
  rw [qsa] at h
  obtain ⟨p, hp, rfl⟩ := List.mem_map.mp h
  have hmatch := (List.mem_filter.mp hp).2
  simp only [cardWithId, List.any_cons, List.any_nil, Bool.or_false,
    Sel.matchesAt, SSel.smatches, Bool.and_eq_true] at hmatch
  obtain ⟨h1, h2⟩ := hmatch
  refine ⟨by simpa using h2, by simpa using h1⟩

theorem removeClass_not_mem (l : List String) : "active" ∉ removeClass "active" l := by
  rw [removeClass]
  intro h
  have := (List.mem_filter.mp h).2
  simp at this

theorem hfc_removeClass :
    ∀ (l : List String) (c : String), c ≠ "active" →
      (c ∈ removeClass "active" l ↔ c ∈ l) := by
  intro l c hc
  rw [removeClass]
  constructor
  · intro h
    exact (List.mem_filter.mp h).1
  · intro h
    exact List.mem_filter.mpr ⟨h, by simpa using hc⟩

theorem hfc_id (a : String) :
    ∀ (l : List String) (c : String), c ≠ a → (c ∈ (id l : List String) ↔ c ∈ l) :=
  fun _ _ _ => Iff.rfl

theorem displayOfId_updIds (ids : List Nat) (fd : String → String)
    (fc : List String → List String) {t : DNode} {i : Nat} {n : DNode}
    (h : findById t i = some n) :
    displayOfId (DNode.updIds ids fd fc t) i =
      some (if n.nid ∈ ids then fd n.display else n.display) := by
  rw [displayOfId, findById_updIds, h]
  simp [display_updIds]

theorem classesOfId_updIds (ids : List Nat) (fd : String → String)
    (fc : List String → List String) {t : DNode} {i : Nat} {n : DNode}
    (h : findById t i = some n) :
    classesOfId (DNode.updIds ids fd fc t) i =
      some (if n.nid ∈ ids then fc n.classes else n.classes) := by
  rw [classesOfId, findById_updIds, h]
  simp [classes_updIds]

theorem displayOfId_updIds_id (ids : List Nat)
    (fc : List String → List String) (t : DNode) (i : Nat) :
    displayOfId (DNode.updIds ids id fc t) i = displayOfId t i := by
  rw [displayOfId, displayOfId, findById_updIds]
  cases findById t i <;> simp [display_updIds_id]

/-- C10 (amended): `showGroupRepos` on a container (with pairwise distinct
node identities) whose repos section holds no holder for the requested
group id still hides every holder (leaving none visible), removes the
`active` class from every card, activates the first card matching the id
when one exists — and none when no card matches — and records the id as
`currentActiveGroup`; with no repos section at all, it changes nothing
and keeps the previous `currentActiveGroup`.  It never throws (it is a
total function). -/
theorem c10_showGroupRepos_behavior (container : DNode) (gid : String)
    (cag : Option String) (hn : (idsOf container).Nodup) :
    (qs container reposSectionSel = none →
      showGroupRepos cag gid container = (container, cag)) ∧
    (∀ rs, qs container reposSectionSel = some rs →
      qs rs (repoContainerWithId gid) = none →
      ((showGroupRepos cag gid container).2 = some gid ∧
       (∀ h ∈ qsa rs repoContainerSel,
         displayOfId (showGroupRepos cag gid container).1 h.nid = some "none") ∧
       (∀ c ∈ qsa container groupCardSel, c.attr "data-group-id" ≠ some gid →
         ∃ l, classesOfId (showGroupRepos cag gid container).1 c.nid = some l ∧
           "active" ∉ l) ∧
       (∀ c0, qs container (cardWithId gid) = some c0 →
         ∃ l, classesOfId (showGroupRepos cag gid container).1 c0.nid = some l ∧
           "active" ∈ l) ∧
       (qs container (cardWithId gid) = none →
         ∀ c ∈ qsa container groupCardSel,
           ∃ l, classesOfId (showGroupRepos cag gid container).1 c.nid = some l ∧
             "active" ∉ l))) := by
  constructor
  · intro hnone
    rw [showGroupRepos, hnone]
  · intro rs hrs hnone
    have hrsmem : rs ∈ nodesOf container :=
      mem_qsa_mem_nodes (mem_of_qs_eq_some hrs)
    have hfrs : findById container rs.nid = some rs := findById_self_of_mem hn hrsmem
    have hav2 : ∀ s ∈ repoContainerWithId gid, s.avoidsCls "active" = true := by
      intro s hs
      rw [repoContainerWithId, List.mem_singleton] at hs
      subst hs
      rfl
    have hav3 : ∀ s ∈ groupCardSel, s.avoidsCls "active" = true := by decide
    have hav5 : ∀ s ∈ cardWithId gid, s.avoidsCls "active" = true := by
      intro s hs
      rw [cardWithId, List.mem_singleton] at hs
      subst hs
      rfl
    set hideIds := (qsa rs repoContainerSel).map DNode.nid with hhideIds
    set U1 := DNode.updIds hideIds (fun _ => "none") id with hU1
    have ht1 : hideAllRepoContainers container rs.nid = U1 container := by
      rw [hideAllRepoContainers, hfrs]
    have hfrs1 : findById (U1 container) rs.nid = some (U1 rs) := by
      rw [hU1, findById_updIds, hfrs]
      rfl
    have hqsrs1 : qs (U1 rs) (repoContainerWithId gid) = none := by
      rw [hU1, qs_updIds (hfc_id "active") hideIds (fun _ => "none") rs
        (repoContainerWithId gid) hav2, hnone]
      rfl
    have ht2 : showSelectedContainer (U1 container) rs.nid gid = U1 container := by
      simp only [showSelectedContainer, hfrs1, hqsrs1]
    set cardIds := (qsa container groupCardSel).map DNode.nid with hcardIds
    have hcards1 : (qsa (U1 container) groupCardSel).map DNode.nid = cardIds := by
      rw [hU1, qsa_updIds (hfc_id "active") hideIds (fun _ => "none") container
        groupCardSel hav3, List.map_map, hcardIds]
      apply List.map_congr_left
      intro m _
      exact nid_updIds _ _ _ m
    set U2 := DNode.updIds cardIds id (removeClass "active") with hU2
    have hua : updateActiveCard (U1 container) gid =
        (match qs (U2 (U1 container)) (cardWithId gid) with
        | some c => DNode.updIds [c.nid] id (addClass "active") (U2 (U1 container))
        | none => U2 (U1 container)) := by
      rw [updateActiveCard, hcards1]
    have hqscard : qs (U2 (U1 container)) (cardWithId gid) =
        ((qs container (cardWithId gid)).map U1).map U2 := by
      rw [hU2, qs_updIds hfc_removeClass cardIds id (U1 container)
        (cardWithId gid) hav5, hU1, qs_updIds (hfc_id "active") hideIds
        (fun _ => "none") container (cardWithId gid) hav5]
    have hmain : showGroupRepos cag gid container =
        (updateActiveCard (U1 container) gid, some gid) := by
      simp only [showGroupRepos, hrs, ht1, ht2]
    refine ⟨by rw [hmain], ?_, ?_, ?_, ?_⟩
    · intro h hh
      have hhmem : h ∈ nodesOf container := mem_qsa_trans hrsmem hh
      have hfh : findById container h.nid = some h := findById_self_of_mem hn hhmem
      have hd1 : displayOfId (U1 container) h.nid = some "none" := by
        rw [hU1, displayOfId_updIds hideIds (fun _ => "none") id hfh]
        have hmem : h.nid ∈ hideIds := by
          rw [hhideIds]
          exact List.mem_map.mpr ⟨h, hh, rfl⟩
        rw [if_pos hmem]
      rw [hmain, hua]
      cases hq0 : qs container (cardWithId gid) with
      | none =>
        have hq2 : qs (U2 (U1 container)) (cardWithId gid) = none := by
          rw [hqscard, hq0]
          rfl
        simp only [hq2]
        rw [hU2, displayOfId_updIds_id]
        exact hd1
      | some c0 =>
        have hq2 : qs (U2 (U1 container)) (cardWithId gid) =
            some (U2 (U1 c0)) := by
          rw [hqscard, hq0]
          rfl
        simp only [hq2]
        rw [displayOfId_updIds_id, hU2, displayOfId_updIds_id]
        exact hd1
    · intro c hc hattr
      have hcmem : c ∈ nodesOf container := mem_qsa_mem_nodes hc
      have hfc0 : findById container c.nid = some c := findById_self_of_mem hn hcmem
      have hf1 : findById (U1 container) c.nid = some (U1 c) := by
        rw [hU1, findById_updIds, hfc0]
        rfl
      have hmemcard : (U1 c).nid ∈ cardIds := by
        rw [hU1, nid_updIds, hcardIds]
        exact List.mem_map.mpr ⟨c, hc, rfl⟩
      have hcl2 : classesOfId (U2 (U1 container)) c.nid =
          some (removeClass "active" c.classes) := by
        rw [hU2, classesOfId_updIds cardIds id (removeClass "active") hf1,
          if_pos hmemcard, hU1, classes_updIds_id]
      rw [hmain, hua]
      cases hq0 : qs container (cardWithId gid) with
      | none =>
        have hq2 : qs (U2 (U1 container)) (cardWithId gid) = none := by
          rw [hqscard, hq0]
          rfl
        simp only [hq2]
        exact ⟨removeClass "active" c.classes, hcl2, removeClass_not_mem _⟩
      | some c0 =>
        have hq2 : qs (U2 (U1 container)) (cardWithId gid) =
            some (U2 (U1 c0)) := by
          rw [hqscard, hq0]
          rfl
        simp only [hq2]
        have hc0attr : c0.attr "data-group-id" = some gid :=
          (attr_of_mem_cardWithId (mem_of_qs_eq_some hq0)).1
        have hc0mem : c0 ∈ nodesOf container :=
          mem_qsa_mem_nodes (mem_of_qs_eq_some hq0)
        have hne : c.nid ≠ c0.nid := by
          intro he
          exact hattr (nid_inj hn hcmem hc0mem he ▸ hc0attr)
        have hf2 : findById (U2 (U1 container)) c.nid = some (U2 (U1 c)) := by
          rw [hU2, findById_updIds, hf1]
          rfl
        have hnidne : c.nid ∉ [(U2 (U1 c0)).nid] := by
          rw [hU2, nid_updIds, hU1, nid_updIds]
          simpa using hne
        refine ⟨removeClass "active" c.classes, ?_, removeClass_not_mem _⟩
        rw [classesOfId_updIds [(U2 (U1 c0)).nid] id (addClass "active") hf2,
          if_neg ?_]
        · have hcls : (U2 (U1 c)).classes = removeClass "active" c.classes := by
            have := hcl2
            rw [classesOfId, hf2] at this
            simpa using this
          rw [hcls]
        · have hcnid : (U2 (U1 c)).nid = c.nid := by
            rw [hU2, nid_updIds, hU1, nid_updIds]
          rw [hcnid]
          exact hnidne
    · intro c0 hq0
      have hc0mem : c0 ∈ nodesOf container :=
        mem_qsa_mem_nodes (mem_of_qs_eq_some hq0)
      have hfc0 : findById container c0.nid = some c0 :=
        findById_self_of_mem hn hc0mem
      have hf1 : findById (U1 container) c0.nid = some (U1 c0) := by
        rw [hU1, findById_updIds, hfc0]
        rfl
      have hf2 : findById (U2 (U1 container)) c0.nid = some (U2 (U1 c0)) := by
        rw [hU2, findById_updIds, hf1]
        rfl
      have hq2 : qs (U2 (U1 container)) (cardWithId gid) =
          some (U2 (U1 c0)) := by
        rw [hqscard, hq0]
        rfl
      rw [hmain, hua]
      simp only [hq2]
      rw [classesOfId_updIds [(U2 (U1 c0)).nid] id (addClass "active") hf2,
        if_pos (List.mem_singleton.mpr rfl)]
      exact ⟨addClass "active" (U2 (U1 c0)).classes, rfl, mem_addClass _ _⟩
    · intro hq0 c hc
      have hcmem : c ∈ nodesOf container := mem_qsa_mem_nodes hc
      have hfc0 : findById container c.nid = some c := findById_self_of_mem hn hcmem
      have hf1 : findById (U1 container) c.nid = some (U1 c) := by
        rw [hU1, findById_updIds, hfc0]
        rfl
      have hmemcard : (U1 c).nid ∈ cardIds := by
        rw [hU1, nid_updIds, hcardIds]
        exact List.mem_map.mpr ⟨c, hc, rfl⟩
      have hcl2 : classesOfId (U2 (U1 container)) c.nid =
          some (removeClass "active" c.classes) := by
        rw [hU2, classesOfId_updIds cardIds id (removeClass "active") hf1,
          if_pos hmemcard, hU1, classes_updIds_id]
      have hq2 : qs (U2 (U1 container)) (cardWithId gid) = none := by
        rw [hqscard, hq0]
        rfl
      rw [hmain, hua]
      simp only [hq2]
      exact ⟨removeClass "active" c.classes, hcl2, removeClass_not_mem _⟩

/-- C10 counterexample: `cexContainerC10` has a repos section whose only
holder carries group id `x` (no holder matches `g`), yet a card carrying
`g` exists; `showGroupRepos` for `g` then adds `active` to that card —
the claim's "removes the active class from every card without activating
any" fails on the code. -/
theorem c10_activates_matching_card :
    (qs cexContainerC10 reposSectionSel).map
      (fun rs => qs rs (repoContainerWithId "g")) = some none ∧
    classesOfId (showGroupRepos none "g" cexContainerC10).1 3 =
      some ["gitlab-group-card", "active"] ∧
    displayOfId (showGroupRepos none "g" cexContainerC10).1 5 = some "none" ∧
    (showGroupRepos none "g" cexContainerC10).2 = some "g" :=
  ⟨rfl, rfl, rfl, rfl⟩

/-- C10 witness: the amended behavior theorem applied to the concrete
container, its hypotheses discharged by evaluation. -/
theorem c10_showGroupRepos_behavior_witness :
    (idsOf cexContainerC10).Nodup ∧
    ((showGroupRepos none "g" cexContainerC10).2 = some "g" ∧
     (∀ h ∈ qsa (DNode.elem 4 "div" ["gitlab-repos-section"] [] "" ""
         (.cons lonelyHolder .nil)) repoContainerSel,
       displayOfId (showGroupRepos none "g" cexContainerC10).1 h.nid =
         some "none") ∧
     (∀ c ∈ qsa cexContainerC10 groupCardSel,
       c.attr "data-group-id" ≠ some "g" →
       ∃ l, classesOfId (showGroupRepos none "g" cexContainerC10).1 c.nid =
         some l ∧ "active" ∉ l) ∧
     (∀ c0, qs cexContainerC10 (cardWithId "g") = some c0 →
       ∃ l, classesOfId (showGroupRepos none "g" cexContainerC10).1 c0.nid =
         some l ∧ "active" ∈ l) ∧
     (qs cexContainerC10 (cardWithId "g") = none →
       ∀ c ∈ qsa cexContainerC10 groupCardSel,
         ∃ l, classesOfId (showGroupRepos none "g" cexContainerC10).1 c.nid =
           some l ∧ "active" ∉ l)) :=
  ⟨by decide,
    (c10_showGroupRepos_behavior cexContainerC10 "g" none (by decide)).2
      (DNode.elem 4 "div" ["gitlab-repos-section"] [] "" ""
        (.cons lonelyHolder .nil)) rfl rfl⟩
